import Mathlib

/-!
# Verification of the Rosella IRC server core

This development shallowly embeds the Rosella server sources and settles a list
of claims about them.  Two snapshots of the code are present: `client.go`
(the current per-client methods: `setNick`, `joinChannel`, `partChannel`,
`reply`, with per-channel mode tables and case-folded `key`s) and `rosella.go`
(the earlier monolith: the `Server` data model, `handleEvent` dispatcher and
its older `setNick` / `joinChannel` / `partChannel` variants).  The two files
define the same methods differently, so they are embedded in two namespaces:

* `ClientGo`  — the data model and operations of `client.go`;
* `RosellaGo` — the data model and operations of `rosella.go`.

Embedding conventions:

* Go `map`s become association lists.  Go's map iteration order is
  unspecified; the list order is the determinization used here, and no theorem
  depends on a particular order (only on per-recipient message counts and on
  key lookups).
* `*Client` pointers become numeric client ids (`ClientId`) resolved through a
  client store `clients : List (ClientId × Client)`; mutating a client through
  a pointer becomes re-inserting its record at its id.
* `*Channel` pointers are represented by storing each channel record inline in
  the server's channel directory, keyed by its directory key; in every
  reachable state each channel object is referenced by exactly one key, so the
  two views coincide.
* Enqueueing a reply line becomes appending a `(recipient, message)` pair to
  an output list; as in the source (`Client.reply`), nothing is enqueued for a
  session whose `connected` flag is cleared.  Messages carry the reply code
  and its arguments; the byte-level formatting of `reply` is not needed by any
  claim and is not modelled.
* Strings are handled with character-list helpers (`fields`, `lowerStr`, ...)
  that mirror the `strings` package functions on the ASCII inputs the protocol
  uses.
-/

/-- Client identity: stands for a `*Client` pointer. -/
abbrev ClientId := Nat

section AssocList

variable {κ : Type} {α : Type} [DecidableEq κ]

/-- Go map read `m[k]`: the value at key `k`, if any. -/
def alLookup : List (κ × α) → κ → Option α
  | [], _ => none
  | (k, v) :: t, key => if k = key then some v else alLookup t key

/-- Go map write `m[k] = v`: replace the entry at `k`, or add one. -/
def alInsert : List (κ × α) → κ → α → List (κ × α)
  | [], key, v => [(key, v)]
  | (k, w) :: t, key, v =>
    if k = key then (key, v) :: t else (k, w) :: alInsert t key v

/-- Go `delete(m, k)`: remove the entry at key `k`. -/
def alDelete : List (κ × α) → κ → List (κ × α)
  | [], _ => []
  | (k, v) :: t, key =>
    if k = key then alDelete t key else (k, v) :: alDelete t key

/-- Go map write into a `map[string]struct` used as a set of keys
(`c.channelMap[k] = channel` keeps just the key here, the channel itself
living in the server's channel directory). -/
def keyInsert (l : List κ) (key : κ) : List κ :=
  if key ∈ l then l else l ++ [key]

end AssocList

section StringHelpers

/-- ASCII whitespace, as recognised by `strings.Fields` on the protocol's
ASCII input. -/
def isSpaceChar (ch : Char) : Bool :=
  decide (ch = ' ' ∨ ch = '\t' ∨ ch = '\n' ∨ ch = '\r')

/-- Split a character list at every character satisfying `p`, keeping empty
pieces (the behaviour of `strings.Split`). -/
def splitChars (p : Char → Bool) : List Char → List Char → List (List Char)
  | [], acc => [acc.reverse]
  | ch :: t, acc =>
    if p ch then acc.reverse :: splitChars p t [] else splitChars p t (ch :: acc)

/-- `strings.Fields`: split on runs of whitespace, dropping empty pieces. -/
def fields (s : String) : List String :=
  ((splitChars isSpaceChar s.data []).map (fun l => String.mk l)).filter
    (fun x => x ≠ "")

/-- `strings.Split(s, ",")`. -/
def splitComma (s : String) : List String :=
  (splitChars (fun ch => ch = ',') s.data []).map (fun l => String.mk l)

/-- `strings.ToLower` on ASCII input. -/
def lowerStr (s : String) : String := String.mk (s.data.map Char.toLower)

/-- `strings.ToUpper` on ASCII input. -/
def upperStr (s : String) : String := String.mk (s.data.map Char.toUpper)

/-- `strings.HasPrefix(s, ":")`. -/
def startsWithColon (s : String) : Bool :=
  match s.data with
  | ch :: _ => ch = ':'
  | [] => false

/-- `strings.TrimPrefix(s, ":")`. -/
def trimColon (s : String) : String :=
  match s.data with
  | ch :: t => if ch = ':' then String.mk t else s
  | [] => s

/-- `strings.Join(l, " ")`. -/
def joinSpace : List String → String
  | [] => ""
  | [x] => x
  | x :: t => x ++ " " ++ joinSpace t

/-- First character class of `nickRegexp` `[a-zA-Z\[\]_^\x7b|\x7d]`. -/
def isNickStartChar (ch : Char) : Bool :=
  decide (('a' ≤ ch ∧ ch ≤ 'z') ∨ ('A' ≤ ch ∧ ch ≤ 'Z') ∨ ch = '[' ∨
    ch = ']' ∨ ch = '_' ∨ ch = '^' ∨ ch = '\x7b' ∨ ch = '|' ∨ ch = '\x7d')

/-- Continuation character class of `nickRegexp` (adds digits). -/
def isNickChar (ch : Char) : Bool :=
  isNickStartChar ch || decide ('0' ≤ ch ∧ ch ≤ '9')

/-- `nickRegexp.MatchString`: the nick regular expression
`[a-zA-Z\[\]_^\x7b|\x7d][a-zA-Z0-9\[\]_^\x7b|\x7d]*` anchored at both ends. -/
def isNickName (s : String) : Bool :=
  match s.data with
  | [] => false
  | ch :: t => isNickStartChar ch && t.all isNickChar

/-- Character class of `channelRegexp` `[a-z0-9_\-]`. -/
def isChannelChar (ch : Char) : Bool :=
  decide (('a' ≤ ch ∧ ch ≤ 'z') ∨ ('0' ≤ ch ∧ ch ≤ '9') ∨ ch = '_' ∨ ch = '-')

/-- `channelRegexp.Match`: the channel regular expression `#[a-z0-9_\-]+`
anchored at both ends. -/
def isChannelName (s : String) : Bool :=
  match s.data with
  | [] => false
  | ch :: t => ch = '#' && !t.isEmpty && t.all isChannelChar

end StringHelpers

section Chunks

variable {α : Type}

/-- Split a list into consecutive chunks of (exactly, except for the last)
128 elements, the shape produced by the names-list loop of
`Client.joinChannel`. -/
def chunksOf : List α → List (List α)
  | [] => []
  | x :: t => (x :: t).take 128 :: chunksOf (t.drop 127)
termination_by l => l.length
decreasing_by
  simp only [List.length_drop, List.length_cons]
  omega

end Chunks

/-! ## The `client.go` snapshot

Data model (`Server`, `Client`, `Channel`, `ClientMode`, `ChannelMode` with
per-channel member and mode tables, case-folded `key`s) and the operations
`setNick`, `joinChannel`, `partChannel` as defined in `client.go`. -/

namespace ClientGo

/-- Per-member per-channel flags (`ClientMode`). -/
structure ClientMode where
  operator : Bool := false
  voice : Bool := false
deriving DecidableEq, Repr

/-- Channel flags (`ChannelMode`). -/
structure ChannelMode where
  secret : Bool := false
  topicLocked : Bool := false
  noExternal : Bool := false
deriving DecidableEq, Repr

/-- A `Channel`.  `clientMap` maps case-folded nicks to sessions and
`modeMap` maps case-folded nicks to `*ClientMode` (a `none` value models a
nil `*ClientMode` pointer, Go's zero value for the type). -/
structure Channel where
  name : String
  topic : String
  clientMap : List (String × ClientId)
  modeMap : List (String × Option ClientMode)
  mode : ChannelMode
deriving DecidableEq, Repr

/-- A `Client` (session).  `channelMap` keeps the keys of the channels the
session has joined; the channel records themselves live in the server's
channel directory. -/
structure Client where
  nick : String := ""
  key : String := ""
  registered : Bool := false
  connected : Bool := true
  channelMap : List String := []
deriving DecidableEq, Repr

/-- The `Server` directories. -/
structure Server where
  name : String
  clientMap : List (String × ClientId)
  channelMap : List (String × Channel)
deriving DecidableEq, Repr

/-- Whole shared state: the server directories plus the store resolving
client ids to client records. -/
structure State where
  server : Server
  clients : List (ClientId × Client)
deriving DecidableEq, Repr

/-- One enqueued reply, by code and arguments (`Client.reply`).  The
byte-level formatting is not modelled. -/
inductive Msg where
  | welcome : Msg
  | join (nick chan : String) : Msg
  | part (nick chan reason : String) : Msg
  | topicIs (chan topic : String) : Msg
  | noTopic (chan : String) : Msg
  | names (chan nicks : String) : Msg
  | endOfNames (chan : String) : Msg
  | nickChange (oldNick newNick : String) : Msg
  | privMsg (fromNick target text : String) : Msg
  | errCannotSend (chan : String) : Msg
  | errNoSuchNick (name : String) : Msg
deriving DecidableEq, Repr

/-- An output event: a line enqueued for one session. -/
abbrev Out := ClientId × Msg

def Msg.isNickChange : Msg → Bool
  | .nickChange _ _ => true
  | _ => false

def Msg.isNames : Msg → Bool
  | .names _ _ => true
  | _ => false

def Msg.isEndOfNames : Msg → Bool
  | .endOfNames _ => true
  | _ => false

/-- Number of messages for recipient `d` satisfying `p` in an output list. -/
def countOut (outs : List Out) (d : ClientId) (p : Msg → Bool) : Nat :=
  match outs with
  | [] => 0
  | (r, m) :: t => (if r = d ∧ p m = true then 1 else 0) + countOut t d p

/-- The client record at id `d`. -/
def clientAt (st : State) (d : ClientId) : Option Client :=
  alLookup st.clients d

/-- The `connected` flag of the session at id `d` (`false` for a dangling
id, which never occurs in reachable states). -/
def connectedIn (st : State) (d : ClientId) : Bool :=
  match clientAt st d with
  | some c => c.connected
  | none => false

/-- The display nick of the session at id `d`. -/
def nickOf (st : State) (d : ClientId) : String :=
  match clientAt st d with
  | some c => c.nick
  | none => ""

/-- The directory key of the session at id `d`. -/
def keyOf (st : State) (d : ClientId) : String :=
  match clientAt st d with
  | some c => c.key
  | none => ""

/-- Store an updated client record at its id. -/
def updateClient (st : State) (d : ClientId) (c : Client) : State :=
  { st with clients := alInsert st.clients d c }

/-- Store an updated channel record at its directory key. -/
def updateChannel (st : State) (k : String) (ch : Channel) : State :=
  { st with server := { st.server with
      channelMap := alInsert st.server.channelMap k ch } }

/-- `Client.reply`: enqueue one line for session `d`, unless its `connected`
flag is cleared. -/
def reply (st : State) (d : ClientId) (m : Msg) : List Out :=
  if connectedIn st d then [(d, m)] else []

/-- `for _, client := range members { client.reply(code, args) }`. -/
def broadcastMsg (st : State) (members : List (String × ClientId)) (m : Msg) :
    List Out :=
  match members with
  | [] => []
  | p :: t => reply st p.2 m ++ broadcastMsg st t m

/-- The member-notification loop of `Client.setNick` (lines 28-34 of
`client.go`): walk a channel's member table, skipping sessions already in the
`visited` set, replying `rplNickChange` to the rest and adding them to the
set. -/
def setNickVisit (st : State) (oldNick newNick : String) :
    List (String × ClientId) → List Out × List ClientId →
    List Out × List ClientId
  | [], acc => acc
  | p :: t, acc =>
    if p.2 ∈ acc.2 then setNickVisit st oldNick newNick t acc
    else
      setNickVisit st oldNick newNick t
        (acc.1 ++ reply st p.2 (Msg.nickChange oldNick newNick), p.2 :: acc.2)

/-- The per-channel loop of `Client.setNick` (lines 25-42 of `client.go`):
for each channel the session is in, delete the old key from the member table,
notify the remaining members (de-duplicated via the visited set), then insert
the session under the new key and carry the old key's mode entry across.
A key absent from the channel directory is skipped (in Go the map holds the
`*Channel` directly, so this case cannot arise). -/
def setNickChannels (oldKey oldNick newKey newNick : String) (cid : ClientId) :
    List String → State → List Out × List ClientId → State × List Out
  | [], st, acc => (st, acc.1)
  | k :: ks, st, acc =>
    match alLookup st.server.channelMap k with
    | none => setNickChannels oldKey oldNick newKey newNick cid ks st acc
    | some ch =>
      let members := alDelete ch.clientMap oldKey
      let st1 := updateChannel st k { ch with clientMap := members }
      let acc1 := setNickVisit st1 oldNick newNick members acc
      let ch1 : Channel := { ch with
        clientMap := alInsert members newKey cid,
        modeMap := alDelete
          (alInsert ch.modeMap newKey ((alLookup ch.modeMap oldKey).getD none))
          oldKey }
      let st2 := updateChannel st1 k ch1
      setNickChannels oldKey oldNick newKey newNick cid ks st2 acc1

/-- `Client.setNick` (`client.go` lines 11-43): re-key the session in
`clientMap`, reply `rplNickChange` to the session itself, then walk its
channels re-keying member and mode tables and notifying every distinct
visible session once. -/
def setNick (st : State) (cid : ClientId) (nick : String) : State × List Out :=
  match clientAt st cid with
  | none => (st, [])
  | some c =>
    let oldNick := c.nick
    let oldKey := c.key
    let c1 := { c with nick := nick, key := lowerStr nick }
    let st1 := updateClient st cid c1
    let st2 := { st1 with server := { st1.server with
        clientMap := alInsert (alDelete st1.server.clientMap oldKey) c1.key cid } }
    let outs0 := reply st2 cid (Msg.nickChange oldNick c1.nick)
    setNickChannels oldKey oldNick c1.key c1.nick cid c.channelMap st2 (outs0, [])

end ClientGo

namespace ClientGo

/-- Modelled from the spec: `ClientMode.Prefix` is referenced by
`client.go` (line 95) but not defined in the provided sources.  Spec §3:
"Serialises to a one-character prefix: `@` for operator, `+` for voice,
nothing for neither (operator wins if both)." -/
def modeSigil (m : ClientMode) : String :=
  if m.operator then "@" else if m.voice then "+" else ""

/-- Reading the sigil through a `*ClientMode`.  A nil pointer (`none`) would
panic in Go and cannot arise in a reachable state; it contributes an empty
sigil here. -/
def sigilOfPtr : Option ClientMode → String
  | some m => modeSigil m
  | none => ""

/-- One entry of the names list (`client.go` lines 92-103): the member's
mode sigil, if a mode entry exists for its key, followed by its nick. -/
def namesEntry (st : State) (ch : Channel) (p : String × ClientId) : String :=
  (match alLookup ch.modeMap (keyOf st p.2) with
   | some om => sigilOfPtr om
   | none => "") ++ nickOf st p.2

/-- The names-list loop of `Client.joinChannel` (lines 91-104): collect
entries, flushing a `rplNames` line whenever the 128-entry buffer is full
before appending.  The accumulator is (flushed lines, current buffer). -/
def namesFold (st : State) (cid : ClientId) (channelName : String)
    (ch : Channel) :
    List (String × ClientId) → List Out × List String → List Out × List String
  | [], acc => acc
  | p :: t, acc =>
    let entry := namesEntry st ch p
    let acc1 :=
      if 128 ≤ acc.2.length then
        (acc.1 ++ reply st cid (Msg.names channelName (joinSpace acc.2)),
          ([] : List String))
      else acc
    namesFold st cid channelName ch t (acc1.1, acc1.2 ++ [entry])

/-- The state-changing half of `Client.joinChannel` (lines 45-76): create the
channel if absent (with default mode `{secret, topicLocked, noExternal}` and
the creator as operator), and unless the session is already a member, insert
it into the member and mode tables and record the channel key in the
session's channel map.  Returns `none` on the early return (already a
member) and on a dangling client id (impossible in Go, where the event
carries a live `*Client`). -/
def joinInsert (st : State) (cid : ClientId) (channelName : String) :
    Option (State × Channel) :=
  match clientAt st cid with
  | none => none
  | some c =>
    let channelKey := lowerStr channelName
    match alLookup st.server.channelMap channelKey with
    | some ch =>
      if (alLookup ch.clientMap c.key).isSome then none
      else
        let mode : ClientMode := {}
        let ch1 := { ch with
          clientMap := alInsert ch.clientMap c.key cid,
          modeMap := alInsert ch.modeMap c.key (some mode) }
        let st1 := updateChannel st channelKey ch1
        let st2 := updateClient st1 cid
          { c with channelMap := keyInsert c.channelMap channelKey }
        some (st2, ch1)
    | none =>
      let ch : Channel :=
        { name := channelName, topic := "",
          clientMap := [], modeMap := [],
          mode := { secret := true, topicLocked := true, noExternal := true } }
      let st0 := updateChannel st channelKey ch
      let mode : ClientMode := { operator := true }
      let ch1 := { ch with
        clientMap := alInsert ch.clientMap c.key cid,
        modeMap := alInsert ch.modeMap c.key (some mode) }
      let st1 := updateChannel st0 channelKey ch1
      let st2 := updateClient st1 cid
        { c with channelMap := keyInsert c.channelMap channelKey }
      some (st2, ch1)

/-- `Client.joinChannel` (`client.go` lines 45-111): perform the membership
insertion, then broadcast `rplJoin` to every member (including the joiner),
send the topic or no-topic reply, the chunked names list, and one
`rplEndOfNames`. -/
def joinChannel (st : State) (cid : ClientId) (channelName : String) :
    State × List Out :=
  match joinInsert st cid channelName with
  | none => (st, [])
  | some (st2, ch1) =>
    let outs1 := broadcastMsg st2 ch1.clientMap (Msg.join (nickOf st2 cid) ch1.name)
    let outs2 :=
      if ch1.topic ≠ "" then reply st2 cid (Msg.topicIs ch1.name ch1.topic)
      else reply st2 cid (Msg.noTopic ch1.name)
    let r := namesFold st2 cid channelName ch1 ch1.clientMap ([], [])
    let outs3 := r.1 ++
      (if 0 < r.2.length then
        reply st2 cid (Msg.names channelName (joinSpace r.2))
      else [])
    (st2, outs1 ++ outs2 ++ outs3 ++ reply st2 cid (Msg.endOfNames channelName))

/-- `Client.partChannel` (`client.go` lines 113-137): if the channel exists
and the session is a member, broadcast `rplPart` to all members, remove the
channel from the session's channel map and the session from the channel's
member and mode tables, and delete the channel from the directory when its
member table became empty. -/
def partChannel (st : State) (cid : ClientId) (channelName reason : String) :
    State × List Out :=
  match clientAt st cid with
  | none => (st, [])
  | some c =>
    let channelKey := lowerStr channelName
    match alLookup st.server.channelMap channelKey with
    | none => (st, [])
    | some ch =>
      match alLookup ch.clientMap c.key with
      | none => (st, [])
      | some _ =>
        let outs := broadcastMsg st ch.clientMap (Msg.part c.nick ch.name reason)
        let st1 := updateClient st cid
          { c with channelMap := c.channelMap.filter (fun k => k ≠ channelKey) }
        let ch1 := { ch with
          modeMap := alDelete ch.modeMap c.key,
          clientMap := alDelete ch.clientMap c.key }
        let st2 :=
          if ch1.clientMap.length = 0 then
            { st1 with server := { st1.server with
                channelMap := alDelete st1.server.channelMap channelKey } }
          else updateChannel st1 channelKey ch1
        (st2, outs)

/-- The per-member relay loop of the PRIVMSG channel case: every member
except the sender gets the message (subject to the `reply` connected
guard). -/
def relayChannel (st : State) (cid : ClientId)
    (members : List (String × ClientId)) (m : Msg) : List Out :=
  match members with
  | [] => []
  | p :: t =>
    (if p.2 = cid then [] else reply st p.2 m) ++ relayChannel st cid t m

/-- Modelled from the spec: the mode-aware PRIVMSG handler of the current
snapshot is not in the provided sources (the `rosella.go` variant predates
channel modes and `errCannotSend`).  Spec §4.3: "If target is a channel key
in channelMap, relay rplMsg to every member except sender (respect
`noExternal`: non-members may not send).  If target is a nick key, relay to
that one session.  Else errNoSuchNick."  The handler mutates no state. -/
def privmsgHandle (st : State) (cid : ClientId) (target text : String) :
    List Out :=
  match alLookup st.server.channelMap target with
  | some ch =>
    if ch.mode.noExternal ∧ alLookup ch.clientMap (keyOf st cid) = none then
      reply st cid (Msg.errCannotSend target)
    else
      relayChannel st cid ch.clientMap (Msg.privMsg (nickOf st cid) target text)
  | none =>
    match alLookup st.server.clientMap target with
    | some did => reply st did (Msg.privMsg (nickOf st cid) (nickOf st did) text)
    | none => reply st cid (Msg.errNoSuchNick target)

end ClientGo

/-! ## The `rosella.go` snapshot

The earlier monolith: the `Server`/`Client`/`Channel` data model without
modes or case-folded keys (`clientMap` and each channel's member table are
keyed by the raw nick), the `handleEvent` dispatcher, and the older
`setNick` / `joinChannel` / `partChannel` variants it calls. -/

namespace RosellaGo

/-- A `Channel` of `rosella.go` (no mode tables). -/
structure Channel where
  name : String
  topic : String
  clientMap : List (String × ClientId)
deriving DecidableEq, Repr

/-- A `Client` of `rosella.go` (no `key` field: the raw nick is the
directory key). -/
structure Client where
  nick : String := ""
  registered : Bool := false
  connected : Bool := true
  channelMap : List String := []
deriving DecidableEq, Repr

/-- The `Server` directories of `rosella.go`. -/
structure Server where
  name : String
  clientMap : List (String × ClientId)
  channelMap : List (String × Channel)
deriving DecidableEq, Repr

/-- Whole shared state. -/
structure State where
  server : Server
  clients : List (ClientId × Client)
deriving DecidableEq, Repr

/-- One enqueued reply of the old `Client.reply`, by code and arguments.
The old `rplNames` case enqueues both the 353 line and a bare 366 line; that
pair is modelled as the single `names` event.  `rplList` enqueues the 321
header, one 322 line per item and the 323 footer, modelled as the single
`list` event carrying the items. -/
inductive Msg where
  | welcome : Msg
  | join (nick chan : String) : Msg
  | part (nick chan : String) : Msg
  | topicIs (chan topic : String) : Msg
  | noTopic (chan : String) : Msg
  | names (chan nicks : String) : Msg
  | nickChange (oldNick newNick : String) : Msg
  | kill (reason : String) : Msg
  | privMsg (fromNick target text : String) : Msg
  | list (items : List String) : Msg
  | errMoreArgs : Msg
  | errNoNick : Msg
  | errInvalidNick (nick : String) : Msg
  | errNickInUse (nick : String) : Msg
  | errNoSuchNick (name : String) : Msg
  | errUnknownCommand (cmd : String) : Msg
  | errNotReg : Msg
deriving DecidableEq, Repr

/-- An output event: a line enqueued for one session. -/
abbrev Out := ClientId × Msg

/-- The client record at id `d`. -/
def clientAt (st : State) (d : ClientId) : Option Client :=
  alLookup st.clients d

/-- The `connected` flag of the session at id `d`. -/
def connectedIn (st : State) (d : ClientId) : Bool :=
  match clientAt st d with
  | some c => c.connected
  | none => false

/-- The nick of the session at id `d`. -/
def nickOf (st : State) (d : ClientId) : String :=
  match clientAt st d with
  | some c => c.nick
  | none => ""

/-- Store an updated client record at its id. -/
def updateClient (st : State) (d : ClientId) (c : Client) : State :=
  { st with clients := alInsert st.clients d c }

/-- Store an updated channel record at its directory key. -/
def updateChannel (st : State) (k : String) (ch : Channel) : State :=
  { st with server := { st.server with
      channelMap := alInsert st.server.channelMap k ch } }

/-- The old `Client.reply`: enqueue one line for session `d`, unless its
`connected` flag is cleared. -/
def reply (st : State) (d : ClientId) (m : Msg) : List Out :=
  if connectedIn st d then [(d, m)] else []

/-- `for _, client := range members { client.reply(code, args) }`. -/
def broadcastMsg (st : State) (members : List (String × ClientId)) (m : Msg) :
    List Out :=
  match members with
  | [] => []
  | p :: t => reply st p.2 m ++ broadcastMsg st t m

/-- `Server.joinChannel` (`rosella.go` lines 310-338): create the channel if
absent, insert the session under its raw nick (no already-member check, no
operator mode), broadcast JOIN to all members, send topic or no-topic, then
one un-chunked names line listing every member key. -/
def joinChannel (st : State) (cid : ClientId) (channelName : String) :
    State × List Out :=
  match clientAt st cid with
  | none => (st, [])
  | some c =>
    let pre :=
      match alLookup st.server.channelMap channelName with
      | some ch => (ch, st)
      | none =>
        let ch : Channel := { name := channelName, topic := "", clientMap := [] }
        (ch, updateChannel st channelName ch)
    let ch := pre.1
    let ch1 := { ch with clientMap := alInsert ch.clientMap c.nick cid }
    let st1 := updateChannel pre.2 channelName ch1
    let st2 := updateClient st1 cid
      { c with channelMap := keyInsert c.channelMap channelName }
    let outs := broadcastMsg st2 ch1.clientMap (Msg.join c.nick channelName)
    let outs2 :=
      if ch1.topic ≠ "" then reply st2 cid (Msg.topicIs channelName ch1.topic)
      else reply st2 cid (Msg.noTopic channelName)
    let nicks := ch1.clientMap.map Prod.fst
    (st2, outs ++ outs2 ++ reply st2 cid (Msg.names channelName (joinSpace nicks)))

/-- `Server.partChannel` (`rosella.go` lines 340-353): if the channel
exists, broadcast PART to all of its members (with no membership check),
then delete the session's nick from the member table and the channel from
the session's channel map.  Empty channels are not removed from the
directory. -/
def partChannel (st : State) (cid : ClientId) (channelName : String) :
    State × List Out :=
  match clientAt st cid with
  | none => (st, [])
  | some c =>
    match alLookup st.server.channelMap channelName with
    | none => (st, [])
    | some ch =>
      let outs := broadcastMsg st ch.clientMap (Msg.part c.nick channelName)
      let ch1 := { ch with clientMap := alDelete ch.clientMap c.nick }
      let st1 := updateChannel st channelName ch1
      let st2 := updateClient st1 cid
        { c with channelMap := c.channelMap.filter (fun k => k ≠ channelName) }
      (st2, outs)

/-- Insert into a sorted list of strings (ascending), for `sort.Strings`. -/
def insertSorted (x : String) : List String → List String
  | [] => [x]
  | y :: t => if y < x then y :: insertSorted x t else x :: y :: t

/-- `sort.Strings`: sort ascending. -/
def sortStrings (l : List String) : List String :=
  l.foldr insertSorted []

/-- The duplicate-skipping send loop of the old `setNick` (lines 529-540):
walk the sorted nick list, skipping a nick equal to the previous one. -/
def dedupConsec (l : List String) : List String :=
  (l.foldl
    (fun (acc : List String × String) nk =>
      if nk = acc.2 then acc else (acc.1 ++ [nk], nk))
    ([], "")).1

/-- The old `Client.setNick` (`rosella.go` lines 503-541): if the session
had a nick, delete its raw-nick entries from `clientMap` and from every
joined channel; store the new nick (not case-folded) in `clientMap` and in
every joined channel while collecting all visible member keys; then sort the
collected nicks, skip consecutive duplicates and send `rplNickChange` to the
session found under each nick in `clientMap`.  A session in no channel gets
no notification at all. -/
def setNick (st : State) (cid : ClientId) (nick : String) : State × List Out :=
  match clientAt st cid with
  | none => (st, [])
  | some c =>
    let stA :=
      if c.nick ≠ "" then
        let st1 := { st with server := { st.server with
            clientMap := alDelete st.server.clientMap c.nick } }
        c.channelMap.foldl
          (fun s k =>
            match alLookup s.server.channelMap k with
            | none => s
            | some ch =>
              updateChannel s k { ch with clientMap := alDelete ch.clientMap c.nick })
          st1
      else st
    let oldNick := c.nick
    let stB := updateClient stA cid { c with nick := nick }
    let stC := { stB with server := { stB.server with
        clientMap := alInsert stB.server.clientMap nick cid } }
    let r := c.channelMap.foldl
      (fun (acc : State × List String) k =>
        match alLookup acc.1.server.channelMap k with
        | none => acc
        | some ch =>
          let ch1 := { ch with clientMap := alInsert ch.clientMap nick cid }
          (updateChannel acc.1 k ch1, acc.2 ++ ch1.clientMap.map Prod.fst))
      (stC, [])
    let outs := (dedupConsec (sortStrings r.2)).foldl
      (fun acc nk =>
        match alLookup r.1.server.clientMap nk with
        | none => acc
        | some did => acc ++ reply r.1 did (Msg.nickChange oldNick nick))
      []
    (r.1, outs)

end RosellaGo

namespace RosellaGo

/-- Line parsing of `Server.handleEvent` (lines 103-114): whitespace
tokenisation, dropping a leading `:`-prefixed source token, upper-casing the
verb.  Returns `none` when there are no fields (the handler returns), and
also when the only field was the source prefix (there Go would panic
indexing `fields[0]`; no claim concerns that input). -/
def parseLine (input : String) : Option (String × List String) :=
  match fields input with
  | [] => none
  | f0 :: rest =>
    match (if startsWithColon f0 then rest else f0 :: rest) with
    | [] => none
    | c0 :: args => some (upperStr c0, args)

/-- The registered flag of the session at id `d`. -/
def registeredIn (st : State) (d : ClientId) : Bool :=
  match clientAt st d with
  | some c => c.registered
  | none => false

/-- The per-name JOIN loop (`rosella.go` lines 172-178): join each
comma-separated name that matches `channelRegexp`, silently skipping the
rest. -/
def processJoin (st : State) (cid : ClientId) :
    List String → State × List Out :=
  fun names =>
    names.foldl
      (fun acc nm =>
        if isChannelName nm then
          let r := joinChannel acc.1 cid nm
          (r.1, acc.2 ++ r.2)
        else acc)
      (st, [])

/-- The per-name PART loop (`rosella.go` lines 191-197): part each
comma-separated name that matches `channelRegexp`, silently skipping the
rest. -/
def processPart (st : State) (cid : ClientId) :
    List String → State × List Out :=
  fun names =>
    names.foldl
      (fun acc nm =>
        if isChannelName nm then
          let r := partChannel acc.1 cid nm
          (r.1, acc.2 ++ r.2)
        else acc)
      (st, [])

/-- The NICK case of `Server.handleEvent` (lines 117-142). -/
def nickCase (st : State) (cid : ClientId) (args : List String) :
    State × List Out :=
  match args with
  | [] => (st, reply st cid Msg.errNoNick)
  | newNick :: _ =>
    if isNickName newNick = false then
      (st, reply st cid (Msg.errInvalidNick newNick))
    else if (alLookup st.server.clientMap newNick).isSome then
      (st, reply st cid (Msg.errNickInUse newNick))
    else if newNick = st.server.name then
      (st, reply st cid (Msg.errNickInUse newNick))
    else setNick st cid newNick

/-- The TOPIC case of `Server.handleEvent` (lines 236-273). -/
def topicCase (st : State) (cid : ClientId) (args : List String) :
    State × List Out :=
  match args with
  | [] => (st, reply st cid Msg.errMoreArgs)
  | a0 :: rest =>
    match alLookup st.server.channelMap a0 with
    | none => (st, reply st cid (Msg.errNoSuchNick a0))
    | some ch =>
      match rest with
      | [] => (st, reply st cid (Msg.topicIs a0 ch.topic))
      | r1 :: _ =>
        if r1 = ":" then
          let st1 := updateChannel st a0 { ch with topic := "" }
          (st1, broadcastMsg st ch.clientMap (Msg.noTopic a0))
        else
          let tp := trimColon (joinSpace rest)
          let st1 := updateChannel st a0 { ch with topic := tp }
          (st1, broadcastMsg st ch.clientMap (Msg.topicIs a0 tp))

/-- The LIST case of `Server.handleEvent` (lines 275-303). -/
def listCase (st : State) (cid : ClientId) (args : List String) :
    State × List Out :=
  match args with
  | [] =>
    let items := st.server.channelMap.map
      (fun p => p.1 ++ " " ++ toString p.2.clientMap.length ++ " :" ++ p.2.topic)
    (st, reply st cid (Msg.list items))
  | a0 :: _ =>
    let items := (splitComma a0).foldl
      (fun acc nm =>
        match alLookup st.server.channelMap nm with
        | some ch =>
          acc ++ [nm ++ " " ++ toString ch.clientMap.length ++ " :" ++ ch.topic]
        | none => acc)
      []
    (st, reply st cid (Msg.list items))

/-- The command switch of `Server.handleEvent` (`rosella.go` lines
116-307), given the parsed verb and arguments.  Only NICK and USER are
reachable without `registered`; JOIN, PART, PRIVMSG, QUIT, TOPIC and LIST
answer `errNotReg` for an unregistered session; anything else (there is no
PING case) answers `errUnknownCommand`. -/
def dispatch (st : State) (cid : ClientId) (command : String)
    (args : List String) : State × List Out :=
  if command = "NICK" then nickCase st cid args
  else if command = "USER" then
    match clientAt st cid with
    | none => (st, [])
    | some c =>
      if c.nick = "" then
        let outs := reply st cid (Msg.kill "Your nickname is already being used")
        (updateClient st cid { c with connected := false }, outs)
      else
        let outs := reply st cid Msg.welcome
        (updateClient st cid { c with registered := true }, outs)
  else if command = "JOIN" then
    if registeredIn st cid = false then (st, reply st cid Msg.errNotReg)
    else match args with
      | [] => (st, reply st cid Msg.errMoreArgs)
      | a0 :: _ =>
        if a0 = "0" then
          match clientAt st cid with
          | none => (st, [])
          | some c =>
            c.channelMap.foldl
              (fun acc k =>
                let r := partChannel acc.1 cid k
                (r.1, acc.2 ++ r.2))
              (st, [])
        else processJoin st cid (splitComma a0)
  else if command = "PART" then
    if registeredIn st cid = false then (st, reply st cid Msg.errNotReg)
    else match args with
      | [] => (st, reply st cid Msg.errMoreArgs)
      | a0 :: _ => processPart st cid (splitComma a0)
  else if command = "PRIVMSG" then
    if registeredIn st cid = false then (st, reply st cid Msg.errNotReg)
    else match args with
      | a0 :: a1 :: rest =>
        let message := joinSpace (a1 :: rest)
        match alLookup st.server.channelMap a0 with
        | some ch =>
          (st, ch.clientMap.foldl
            (fun acc p =>
              if p.2 ≠ cid then
                acc ++ reply st p.2 (Msg.privMsg (nickOf st cid) a0 message)
              else acc)
            [])
        | none =>
          match alLookup st.server.clientMap a0 with
          | some did =>
            (st, reply st did (Msg.privMsg (nickOf st cid) (nickOf st did) message))
          | none => (st, reply st cid (Msg.errNoSuchNick a0))
      | _ => (st, reply st cid Msg.errMoreArgs)
  else if command = "QUIT" then
    if registeredIn st cid = false then (st, reply st cid Msg.errNotReg)
    else
      match clientAt st cid with
      | none => (st, [])
      | some c => (updateClient st cid { c with connected := false }, [])
  else if command = "TOPIC" then
    if registeredIn st cid = false then (st, reply st cid Msg.errNotReg)
    else topicCase st cid args
  else if command = "LIST" then
    if registeredIn st cid = false then (st, reply st cid Msg.errNotReg)
    else listCase st cid args
  else (st, reply st cid (Msg.errUnknownCommand command))

/-- `Server.handleEvent` (`rosella.go` lines 102-308) on one input line from
session `cid`. -/
def handleEvent (st : State) (cid : ClientId) (input : String) :
    State × List Out :=
  match parseLine input with
  | none => (st, [])
  | some (command, args) => dispatch st cid command args

end RosellaGo

namespace ClientGo

/-- Session `d` is visible from one of the channels whose keys are listed in
`cKeys`: it appears as a value of such a channel's member table.  This is the
code's notion of "sharing a channel" used by the `setNick` notification
loop. -/
def sharesWith (st : State) (cKeys : List String) (d : ClientId) : Bool :=
  cKeys.any (fun k =>
    match alLookup st.server.channelMap k with
    | none => false
    | some ch => ch.clientMap.any (fun p => p.2 = d))

/-- The ids the `setNick` channel loop offers to the visited set: for each
listed channel, the member-table values after the old key is deleted, in
iteration order. -/
def loopMembers (st : State) (oldKey : String) : List String → List ClientId
  | [] => []
  | k :: ks =>
    (match alLookup st.server.channelMap k with
     | none => []
     | some ch => (alDelete ch.clientMap oldKey).map Prod.snd) ++
    loopMembers st oldKey ks

/-- The membership-and-mode re-keying `setNick` applies to each channel of
the renamed session (`client.go` lines 26-41, state part). -/
def rekeyChannel (ch : Channel) (oldKey newKey : String) (cid : ClientId) :
    Channel :=
  { ch with
    clientMap := alInsert (alDelete ch.clientMap oldKey) newKey cid,
    modeMap := alDelete
      (alInsert ch.modeMap newKey ((alLookup ch.modeMap oldKey).getD none))
      oldKey }

/-- The state `Client.setNick` has produced just before its channel loop
starts (lines 13-19 of `client.go`): the session record renamed and re-keyed,
and `clientMap` re-keyed from the old key to the new one. -/
def setNickState (st : State) (cid : ClientId) (c : Client) (nick : String) :
    State :=
  { server := { st.server with
      clientMap := alInsert (alDelete st.server.clientMap c.key) (lowerStr nick) cid },
    clients := alInsert st.clients cid { c with nick := nick, key := lowerStr nick } }

/-- The names-list traffic of an output list: the 353 (`rplNames`) and 366
(`rplEndOfNames`) lines addressed to session `cid`, in order. -/
def namesTraffic (outs : List Out) (cid : ClientId) : List Out :=
  outs.filter (fun p =>
    decide (p.1 = cid) && (Msg.isNames p.2 || Msg.isEndOfNames p.2))

end ClientGo

/-! ## Concrete states used by witnesses and counterexamples -/

/-- Channel `#r1` inhabited by alice (id 0) and bob (id 1). -/
def chR1 : ClientGo.Channel :=
  { name := "#r1", topic := "",
    clientMap := [("alice", 0), ("bob", 1)],
    modeMap := [("alice", some {}), ("bob", some {})], mode := {} }

/-- Channel `#r2` inhabited by alice (id 0) and carol (id 2). -/
def chR2 : ClientGo.Channel :=
  { name := "#r2", topic := "",
    clientMap := [("alice", 0), ("carol", 2)],
    modeMap := [("alice", some {}), ("carol", some {})], mode := {} }

/-- The scenario of spec §8 test 4: alice shares `#r1` with bob and `#r2`
with carol; dave shares nothing. -/
def stVis : ClientGo.State :=
  { server :=
      { name := "rosella",
        clientMap := [("alice", 0), ("bob", 1), ("carol", 2), ("dave", 3)],
        channelMap := [("#r1", chR1), ("#r2", chR2)] },
    clients :=
      [(0, { nick := "alice", key := "alice", channelMap := ["#r1", "#r2"] }),
       (1, { nick := "bob", key := "bob", channelMap := ["#r1"] }),
       (2, { nick := "carol", key := "carol", channelMap := ["#r2"] }),
       (3, { nick := "dave", key := "dave" })] }

/-- Channel `#a` whose only member Bob (id 0) is a channel operator. -/
def chA : ClientGo.Channel :=
  { name := "#a", topic := "",
    clientMap := [("bob", 0)],
    modeMap := [("bob", some { operator := true })], mode := {} }

/-- Bob (nick `Bob`, key `bob`), channel operator of `#a`: the state for the
case-only rename `Bob` to `BOB`, whose new key equals the old one. -/
def stCaseRename : ClientGo.State :=
  { server :=
      { name := "rosella", clientMap := [("bob", 0)],
        channelMap := [("#a", chA)] },
    clients := [(0, { nick := "Bob", key := "bob", channelMap := ["#a"] })] }

/-- Channel `#room` whose only member is ann (id 9). -/
def chRoom : ClientGo.Channel :=
  { name := "#room", topic := "",
    clientMap := [("ann", 9)],
    modeMap := [("ann", some { operator := true })], mode := {} }

/-- ann alone in `#room`; eve (id 7) in no channel. -/
def stSolo : ClientGo.State :=
  { server :=
      { name := "rosella", clientMap := [("eve", 7), ("ann", 9)],
        channelMap := [("#room", chRoom)] },
    clients :=
      [(7, { nick := "eve", key := "eve" }),
       (9, { nick := "ann", key := "ann", channelMap := ["#room"] })] }

/-- Channel `#priv` with default `{secret, topicLocked, noExternal}` mode,
inhabited by ann (id 9) and bob (id 1). -/
def chPriv : ClientGo.Channel :=
  { name := "#priv", topic := "",
    clientMap := [("ann", 9), ("bob", 1)],
    modeMap := [("ann", some { operator := true }), ("bob", some {})],
    mode := { secret := true, topicLocked := true, noExternal := true } }

/-- ann and bob in `#priv` (noExternal set); eve in no channel. -/
def stPriv : ClientGo.State :=
  { server :=
      { name := "rosella",
        clientMap := [("ann", 9), ("bob", 1), ("eve", 7)],
        channelMap := [("#priv", chPriv)] },
    clients :=
      [(1, { nick := "bob", key := "bob", channelMap := ["#priv"] }),
       (7, { nick := "eve", key := "eve" }),
       (9, { nick := "ann", key := "ann", channelMap := ["#priv"] })] }

/-- `#room` as it stands right after eve joined it. -/
def chRoomJ : ClientGo.Channel :=
  { name := "#room", topic := "",
    clientMap := [("ann", 9), ("eve", 7)],
    modeMap := [("ann", some { operator := true }), ("eve", some {})],
    mode := {} }

/-- `stSolo` as it stands right after eve joined `#room`. -/
def stSoloJ : ClientGo.State :=
  { server :=
      { name := "rosella", clientMap := [("eve", 7), ("ann", 9)],
        channelMap := [("#room", chRoomJ)] },
    clients :=
      [(7, { nick := "eve", key := "eve", channelMap := ["#room"] }),
       (9, { nick := "ann", key := "ann", channelMap := ["#room"] })] }

/-- An unregistered session bob (id 0) on the old server. -/
def stPre : RosellaGo.State :=
  { server := { name := "rosella", clientMap := [("bob", 0)], channelMap := [] },
    clients := [(0, { nick := "bob" })] }

/-- A registered session alice (id 0) on the old server named `rosella`. -/
def stReg : RosellaGo.State :=
  { server := { name := "rosella", clientMap := [("alice", 0)], channelMap := [] },
    clients := [(0, { nick := "alice", registered := true })] }

/-! ## General lemmas about the map and chunk helpers -/

section AssocListLemmas

variable {κ : Type} {α : Type} [DecidableEq κ]

@[simp]
theorem alLookup_nil (key : κ) : alLookup ([] : List (κ × α)) key = none := rfl

theorem alLookup_alInsert_self (l : List (κ × α)) (key : κ) (v : α) :
    alLookup (alInsert l key v) key = some v := by
  induction l with
  | nil => simp [alInsert, alLookup]
  | cons p t ih =>
    obtain ⟨k, w⟩ := p
    by_cases h : k = key
    · simp [alInsert, h, alLookup]
    · simp [alInsert, h, alLookup, ih]

theorem alLookup_alInsert_ne (l : List (κ × α)) (key key' : κ) (v : α)
    (h : key ≠ key') : alLookup (alInsert l key v) key' = alLookup l key' := by
  induction l with
  | nil => simp [alInsert, alLookup, h]
  | cons p t ih =>
    obtain ⟨k, w⟩ := p
    by_cases hk : k = key
    · subst hk
      simp [alInsert, alLookup, h]
    · by_cases hk' : k = key'
      · subst hk'
        simp [alInsert, Ne.symm h, alLookup]
      · simp [alInsert, hk, alLookup, hk', ih]

theorem alLookup_alDelete_self (l : List (κ × α)) (key : κ) :
    alLookup (alDelete l key) key = none := by
  induction l with
  | nil => simp [alDelete, alLookup]
  | cons p t ih =>
    obtain ⟨k, w⟩ := p
    by_cases h : k = key
    · simpa [alDelete, h] using ih
    · simp [alDelete, h, alLookup, ih]

theorem alLookup_alDelete_ne (l : List (κ × α)) (key key' : κ)
    (h : key ≠ key') : alLookup (alDelete l key) key' = alLookup l key' := by
  induction l with
  | nil => simp [alDelete, alLookup]
  | cons p t ih =>
    obtain ⟨k, w⟩ := p
    by_cases hk : k = key
    · subst hk
      simp [alDelete, alLookup, h, ih]
    · by_cases hk' : k = key'
      · subst hk'
        simp [alDelete, hk, alLookup]
      · simp [alDelete, hk, alLookup, hk', ih]

theorem alLookup_alDelete_ne_self (l : List (κ × α)) (key key' : κ)
    (h : key ≠ key') : alLookup (alDelete l key') key = alLookup l key :=
  alLookup_alDelete_ne l key' key (Ne.symm h)

theorem alInsert_alInsert_self (l : List (κ × α)) (key : κ) (v w : α) :
    alInsert (alInsert l key v) key w = alInsert l key w := by
  induction l with
  | nil => simp [alInsert]
  | cons p t ih =>
    obtain ⟨k, x⟩ := p
    by_cases h : k = key
    · simp [alInsert, h]
    · simp [alInsert, h, ih]

theorem alInsert_of_lookup_none (l : List (κ × α)) (key : κ) (v : α)
    (h : alLookup l key = none) : alInsert l key v = l ++ [(key, v)] := by
  induction l with
  | nil => simp [alInsert]
  | cons p t ih =>
    obtain ⟨k, w⟩ := p
    by_cases hk : k = key
    · simp [alLookup, hk] at h
    · simp [alLookup, hk] at h
      simp [alInsert, hk, ih h]

theorem alDelete_of_lookup_none (l : List (κ × α)) (key : κ)
    (h : alLookup l key = none) : alDelete l key = l := by
  induction l with
  | nil => rfl
  | cons p t ih =>
    obtain ⟨k, w⟩ := p
    by_cases hk : k = key
    · simp [alLookup, hk] at h
    · simp [alLookup, hk] at h
      simp [alDelete, hk, ih h]

theorem alDelete_append (l l' : List (κ × α)) (key : κ) :
    alDelete (l ++ l') key = alDelete l key ++ alDelete l' key := by
  induction l with
  | nil => simp [alDelete]
  | cons p t ih =>
    obtain ⟨k, w⟩ := p
    by_cases hk : k = key
    · simp [alDelete, hk, ih]
    · simp [alDelete, hk, ih]

theorem mem_alInsert (l : List (κ × α)) (key : κ) (v : α) (p : κ × α)
    (h : p ∈ alInsert l key v) : p = (key, v) ∨ p ∈ l := by
  induction l with
  | nil =>
    simp [alInsert] at h
    simp [h]
  | cons q t ih =>
    obtain ⟨k, w⟩ := q
    by_cases hk : k = key
    · simp [alInsert, hk] at h
      rcases h with h | h
      · exact Or.inl (by simp [h])
      · exact Or.inr (by simp [h])
    · simp [alInsert, hk] at h
      rcases h with h | h
      · exact Or.inr (by simp [h])
      · rcases ih h with h' | h'
        · exact Or.inl h'
        · exact Or.inr (by simp [h'])

theorem mem_alDelete (l : List (κ × α)) (key : κ) (p : κ × α)
    (h : p ∈ alDelete l key) : p ∈ l := by
  induction l with
  | nil => simp [alDelete] at h
  | cons q t ih =>
    obtain ⟨k, w⟩ := q
    by_cases hk : k = key
    · simp [alDelete, hk] at h
      exact List.mem_cons_of_mem _ (ih h)
    · simp [alDelete, hk] at h
      rcases h with h | h
      · simp [h]
      · exact List.mem_cons_of_mem _ (ih h)

end AssocListLemmas

section ChunkLemmas

variable {α : Type}

@[simp]
theorem chunksOf_nil : chunksOf ([] : List α) = [] := by
  rw [chunksOf]

theorem chunksOf_cons (x : α) (t : List α) :
    chunksOf (x :: t) = (x :: t).take 128 :: chunksOf ((x :: t).drop 128) := by
  rw [chunksOf]
  rfl

theorem chunksOf_of_ne_nil (l : List α) (h : l ≠ []) :
    chunksOf l = l.take 128 :: chunksOf (l.drop 128) := by
  cases l with
  | nil => exact absurd rfl h
  | cons x t => exact chunksOf_cons x t

theorem chunksOf_short (l : List α) (h : l.length ≤ 128) (h' : l ≠ []) :
    chunksOf l = [l] := by
  rw [chunksOf_of_ne_nil l h']
  have ht : l.take 128 = l := List.take_of_length_le h
  have hd : l.drop 128 = [] := List.drop_eq_nil_of_le h
  simp [ht, hd]

theorem chunksOf_mem_length_le (l : List α) (c : List α)
    (h : c ∈ chunksOf l) : c.length ≤ 128 := by
  induction l using chunksOf.induct with
  | case1 => simp at h
  | case2 x t ih =>
    rw [chunksOf_cons x t] at h
    rcases List.mem_cons.mp h with h' | h'
    · subst h'
      simp
    · rw [List.drop_succ_cons] at h'
      exact ih h'

theorem chunksOf_mem_ne_nil (l : List α) (c : List α)
    (h : c ∈ chunksOf l) : c ≠ [] := by
  induction l using chunksOf.induct with
  | case1 => simp at h
  | case2 x t ih =>
    rw [chunksOf_cons x t] at h
    rcases List.mem_cons.mp h with h' | h'
    · subst h'
      simp
    · rw [List.drop_succ_cons] at h'
      exact ih h'

theorem chunksOf_length_ge_two (l : List α) (h : 128 < l.length) :
    2 ≤ (chunksOf l).length := by
  have hne : l ≠ [] := by
    intro he
    subst he
    simp at h
  rw [chunksOf_of_ne_nil l hne]
  have hd : l.drop 128 ≠ [] := by
    intro he
    have := congrArg List.length he
    simp only [List.length_drop, List.length_nil] at this
    omega
  rw [chunksOf_of_ne_nil (l.drop 128) hd]
  simp only [List.length_cons]
  omega

end ChunkLemmas

/-! ## Claim C9 — PART affects only channels the session is a member of -/

/-- C9: handling PART of a channel the session is not a member of (or of a
channel key absent from the directory) sends no PART broadcast and leaves the
whole state — in particular the channel's member table, its mode table and
`channelMap` — unchanged (`Client.partChannel`, `client.go` lines 113-137). -/
theorem c9_partChannel_nonmember (st : ClientGo.State) (cid : ClientId)
    (channelName reason : String) (c : ClientGo.Client)
    (H1 : ClientGo.clientAt st cid = some c)
    (H2 : ∀ ch, alLookup st.server.channelMap (lowerStr channelName) = some ch →
      alLookup ch.clientMap c.key = none) :
    ClientGo.partChannel st cid channelName reason = (st, []) := by
  unfold ClientGo.partChannel
  rw [H1]
  cases hch : alLookup st.server.channelMap (lowerStr channelName) with
  | none => simp only [hch]
  | some ch => simp only [hch, H2 ch hch]

/-- Witness for C9: eve (id 7) is not a member of `#room`; her PART of it is
a complete no-op. -/
theorem c9_partChannel_nonmember_witness :
    ClientGo.partChannel stSolo 7 "#room" "bye" = (stSolo, []) := by
  refine c9_partChannel_nonmember stSolo 7 "#room" "bye"
    { nick := "eve", key := "eve" } (by decide) ?_
  intro ch hch
  have h0 : alLookup stSolo.server.channelMap (lowerStr "#room") = some chRoom := by
    decide
  rw [h0] at hch
  injection hch with h
  subst h
  decide

/-! ## Claim C3 — no empty channel survives a PART -/

/-- C3: `Client.partChannel` preserves the invariant that every channel in
`channelMap` has a non-empty member table, and when the parting session was
the channel's last member the channel's key is removed from `channelMap`
(`client.go` lines 134-136). -/
theorem c3_partChannel_channel_gc (st : ClientGo.State) (cid : ClientId)
    (channelName reason : String)
    (H : ∀ p ∈ st.server.channelMap, p.2.clientMap ≠ []) :
    (∀ p ∈ ((ClientGo.partChannel st cid channelName reason).1).server.channelMap,
      p.2.clientMap ≠ []) ∧
    (∀ c ch, ClientGo.clientAt st cid = some c →
      alLookup st.server.channelMap (lowerStr channelName) = some ch →
      (alLookup ch.clientMap c.key).isSome = true →
      alDelete ch.clientMap c.key = [] →
      alLookup ((ClientGo.partChannel st cid channelName reason).1).server.channelMap
        (lowerStr channelName) = none) := by
  constructor
  · intro p hp
    unfold ClientGo.partChannel at hp
    cases hc : ClientGo.clientAt st cid with
    | none =>
      simp only [hc] at hp
      exact H p hp
    | some c =>
      cases hch : alLookup st.server.channelMap (lowerStr channelName) with
      | none =>
        simp only [hc, hch] at hp
        exact H p hp
      | some ch =>
        cases hmem : alLookup ch.clientMap c.key with
        | none =>
          simp only [hc, hch, hmem] at hp
          exact H p hp
        | some v =>
          simp only [hc, hch, hmem, ClientGo.updateClient, ClientGo.updateChannel] at hp
          by_cases hlen : (alDelete ch.clientMap c.key).length = 0
          · rw [if_pos hlen] at hp
            exact H p (mem_alDelete _ _ _ hp)
          · rw [if_neg hlen] at hp
            rcases mem_alInsert _ _ _ _ hp with h' | h'
            · subst h'
              simp only [ne_eq]
              intro he
              exact hlen (by simp [he])
            · exact H p h'
  · intro c ch h1 h2 h3 h4
    unfold ClientGo.partChannel
    cases hmem : alLookup ch.clientMap c.key with
    | none =>
      rw [hmem] at h3
      simp at h3
    | some v =>
      simp only [h1, h2, hmem, ClientGo.updateClient, ClientGo.updateChannel]
      have hlen : (alDelete ch.clientMap c.key).length = 0 := by simp [h4]
      rw [if_pos hlen]
      exact alLookup_alDelete_self _ _

/-- Witness for C3: ann (id 9) is the last member of `#room`; after her PART
the invariant still holds and `#room` is gone from the directory. -/
theorem c3_partChannel_channel_gc_witness :
    (∀ p ∈ ((ClientGo.partChannel stSolo 9 "#room" "bye").1).server.channelMap,
      p.2.clientMap ≠ []) ∧
    alLookup ((ClientGo.partChannel stSolo 9 "#room" "bye").1).server.channelMap
      (lowerStr "#room") = none := by
  have h := c3_partChannel_channel_gc stSolo 9 "#room" "bye" (by decide)
  refine ⟨h.1, ?_⟩
  exact h.2 { nick := "ann", key := "ann", channelMap := ["#room"] } chRoom
    (by decide) (by decide) (by decide) (by decide)

/-! ## Claim C7 — JOIN then PART round-trips the channel directory -/

/-- C7: for a channel name whose key is not in `channelMap`, a JOIN followed
by a PART of the same name restores `channelMap` exactly (`Client.joinChannel`
creates the channel and adds the joiner; `Client.partChannel` removes the
last member and deletes the channel). -/
theorem c7_join_part_roundtrip (st : ClientGo.State) (cid : ClientId)
    (channelName reason : String) (c : ClientGo.Client)
    (H1 : ClientGo.clientAt st cid = some c)
    (H2 : alLookup st.server.channelMap (lowerStr channelName) = none) :
    ((ClientGo.partChannel (ClientGo.joinChannel st cid channelName).1 cid
      channelName reason).1).server.channelMap = st.server.channelMap := by
  unfold ClientGo.joinChannel ClientGo.joinInsert
  rw [H1]
  simp only [H2]
  unfold ClientGo.partChannel
  simp only [ClientGo.clientAt, ClientGo.updateClient, ClientGo.updateChannel,
    alLookup_alInsert_self, alInsert_alInsert_self]
  have h3 : (alDelete (alInsert ([] : List (String × ClientId)) c.key cid) c.key).length = 0 := by
    simp [alInsert, alDelete]
  rw [if_pos h3]
  dsimp only
  rw [alInsert_of_lookup_none _ _ _ H2, alDelete_append, alDelete_of_lookup_none _ _ H2]
  simp [alDelete]

/-- Witness for C7: eve joins and parts the fresh channel `#solo`; the
channel directory returns to its pre-JOIN state. -/
theorem c7_join_part_roundtrip_witness :
    ((ClientGo.partChannel (ClientGo.joinChannel stSolo 7 "#solo").1 7
      "#solo" "bye").1).server.channelMap = stSolo.server.channelMap :=
  c7_join_part_roundtrip stSolo 7 "#solo" "bye" { nick := "eve", key := "eve" }
    (by decide) (by decide)

/-! ## Claim C10 — invalid channel names are skipped silently -/

/-- A fold that acts only on names satisfying `p` computes the same result
on a name list and on its `p`-filtered sublist. -/
theorem foldl_skip_filter {σ : Type} (p : String → Bool) (g : σ → String → σ)
    (names : List String) :
    ∀ a : σ,
      names.foldl (fun acc nm => if p nm then g acc nm else acc) a =
      (names.filter p).foldl (fun acc nm => if p nm then g acc nm else acc) a := by
  induction names with
  | nil =>
    intro a
    rfl
  | cons nm t ih =>
    intro a
    by_cases h : p nm = true
    · rw [List.filter_cons_of_pos h]
      simp only [List.foldl_cons, h, if_true]
      exact ih _
    · rw [List.filter_cons_of_neg h]
      simp only [List.foldl_cons, h, if_false]
      exact ih a

/-- C10: in the JOIN and PART loops of `Server.handleEvent` (`rosella.go`
lines 172-178 and 191-197), a comma-separated name that does not match
`channelRegexp` contributes nothing: the loops behave exactly as on the list
with the invalid names removed, so such a name causes no state change and no
reply of any kind. -/
theorem c10_invalid_channel_names_skipped (st : RosellaGo.State)
    (cid : ClientId) (names : List String) :
    RosellaGo.processJoin st cid names =
      RosellaGo.processJoin st cid (names.filter isChannelName) ∧
    RosellaGo.processPart st cid names =
      RosellaGo.processPart st cid (names.filter isChannelName) := by
  constructor
  · exact foldl_skip_filter isChannelName
      (fun acc nm =>
        ((RosellaGo.joinChannel acc.1 cid nm).1,
          acc.2 ++ (RosellaGo.joinChannel acc.1 cid nm).2))
      names (st, [])
  · exact foldl_skip_filter isChannelName
      (fun acc nm =>
        ((RosellaGo.partChannel acc.1 cid nm).1,
          acc.2 ++ (RosellaGo.partChannel acc.1 cid nm).2))
      names (st, [])

/-! ## Claim C4 — the pre-registration gate -/

/-- Counterexample for C4: in `Server.handleEvent` (`rosella.go` lines
227-234) QUIT from an unregistered session is answered with `errNotReg` and
the session stays connected — it is not "accepted and handled normally" —
and PING (for which no case exists, lines 305-307) is answered with
`errUnknownCommand`, not with `errNotReg` and not handled. -/
theorem c4_counterexample :
    RosellaGo.handleEvent stPre 0 "QUIT" = (stPre, [(0, RosellaGo.Msg.errNotReg)]) ∧
    RosellaGo.handleEvent stPre 0 "PING" =
      (stPre, [(0, RosellaGo.Msg.errUnknownCommand "PING")]) := by
  constructor
  · rfl
  · rfl

/-- C4 (amended): for a session with `registered == false`, each of JOIN,
PART, PRIVMSG, QUIT, TOPIC and LIST is answered with `errNotReg` and leaves
the state unchanged, and every verb other than these and NICK and USER
(PING included, since no PING case exists) is answered with
`errUnknownCommand` and leaves the state unchanged. -/
theorem c4_preregistration_gate (st : RosellaGo.State) (cid : ClientId)
    (input command : String) (args : List String) (c : RosellaGo.Client)
    (H1 : RosellaGo.clientAt st cid = some c)
    (H2 : c.registered = false)
    (H3 : c.connected = true)
    (H4 : RosellaGo.parseLine input = some (command, args)) :
    (command ∈ ["JOIN", "PART", "PRIVMSG", "QUIT", "TOPIC", "LIST"] →
      RosellaGo.handleEvent st cid input = (st, [(cid, RosellaGo.Msg.errNotReg)])) ∧
    (command ∉ ["NICK", "USER", "JOIN", "PART", "PRIVMSG", "QUIT", "TOPIC", "LIST"] →
      RosellaGo.handleEvent st cid input =
        (st, [(cid, RosellaGo.Msg.errUnknownCommand command)])) := by
  have hreg : RosellaGo.registeredIn st cid = false := by
    simp [RosellaGo.registeredIn, H1, H2]
  have hrep : ∀ m, RosellaGo.reply st cid m = [(cid, m)] := by
    intro m
    simp [RosellaGo.reply, RosellaGo.connectedIn, H1, H3]
  unfold RosellaGo.handleEvent
  rw [H4]
  constructor
  · intro hmem
    simp only [List.mem_cons, List.not_mem_nil, or_false] at hmem
    unfold RosellaGo.dispatch
    rcases hmem with h | h | h | h | h | h <;> subst h <;>
      simp [hreg, hrep]
  · intro hmem
    simp only [List.mem_cons, List.not_mem_nil, or_false] at hmem
    push_neg at hmem
    obtain ⟨n1, n2, n3, n4, n5, n6, n7, n8⟩ := hmem
    unfold RosellaGo.dispatch
    simp [n1, n2, n3, n4, n5, n6, n7, n8, hrep]

/-- Witness for C4 (amended): unregistered bob's `JOIN #room` draws
`errNotReg` and his `WHOIS bob` draws `errUnknownCommand`, both leaving the
state unchanged. -/
theorem c4_preregistration_gate_witness :
    RosellaGo.handleEvent stPre 0 "JOIN #room" =
      (stPre, [(0, RosellaGo.Msg.errNotReg)]) ∧
    RosellaGo.handleEvent stPre 0 "WHOIS bob" =
      (stPre, [(0, RosellaGo.Msg.errUnknownCommand "WHOIS")]) := by
  have h1 := c4_preregistration_gate stPre 0 "JOIN #room" "JOIN" ["#room"]
    { nick := "bob" } (by decide) rfl rfl (by decide)
  have h2 := c4_preregistration_gate stPre 0 "WHOIS bob" "WHOIS" ["bob"]
    { nick := "bob" } (by decide) rfl rfl (by decide)
  exact ⟨h1.1 (by decide), h2.2 (by decide)⟩

/-! ## Claim C5 — NICK collision checks -/

/-- Counterexample for C5: with server name `rosella` and a registered alice,
`NICK Rosella` — equal to the server name under ASCII case-folding — is not
answered with `errNickInUse`: no reply at all is produced and `clientMap` is
re-keyed to `Rosella` (the checks at `rosella.go` lines 131-140 compare the
raw string). -/
theorem c5_counterexample :
    (RosellaGo.handleEvent stReg 0 "NICK Rosella").2 = [] ∧
    alLookup (RosellaGo.handleEvent stReg 0 "NICK Rosella").1.server.clientMap
      "Rosella" = some 0 := by
  constructor
  · rfl
  · rfl

/-- C5 (amended): a NICK whose regex-valid argument is exactly equal (no
case-folding) to the server's name or to an existing `clientMap` key is
answered with `errNickInUse` and changes nothing (`rosella.go` lines
117-142). -/
theorem c5_nick_exact_collision (st : RosellaGo.State) (cid : ClientId)
    (input newNick : String) (rest : List String) (c : RosellaGo.Client)
    (H1 : RosellaGo.clientAt st cid = some c)
    (H2 : c.connected = true)
    (H3 : RosellaGo.parseLine input = some ("NICK", newNick :: rest))
    (H4 : isNickName newNick = true)
    (H5 : newNick = st.server.name ∨
      (alLookup st.server.clientMap newNick).isSome = true) :
    RosellaGo.handleEvent st cid input =
      (st, [(cid, RosellaGo.Msg.errNickInUse newNick)]) := by
  have hrep : ∀ m, RosellaGo.reply st cid m = [(cid, m)] := by
    intro m
    simp [RosellaGo.reply, RosellaGo.connectedIn, H1, H2]
  unfold RosellaGo.handleEvent
  rw [H3]
  show RosellaGo.dispatch st cid "NICK" (newNick :: rest) =
    (st, [(cid, RosellaGo.Msg.errNickInUse newNick)])
  unfold RosellaGo.dispatch
  rw [if_pos (show ("NICK" : String) = "NICK" from rfl)]
  unfold RosellaGo.nickCase
  dsimp only
  have hval : ¬ (isNickName newNick = false) := by simp [H4]
  rw [if_neg hval]
  rcases H5 with h5 | h5
  · by_cases h6 : (alLookup st.server.clientMap newNick).isSome = true
    · rw [if_pos h6, hrep]
    · rw [if_neg h6, if_pos h5, hrep]
  · rw [if_pos h5, hrep]

/-- Witness for C5 (amended): `NICK rosella` — exactly the server's name —
is answered with `errNickInUse` and leaves the state unchanged. -/
theorem c5_nick_exact_collision_witness :
    RosellaGo.handleEvent stReg 0 "NICK rosella" =
      (stReg, [(0, RosellaGo.Msg.errNickInUse "rosella")]) :=
  c5_nick_exact_collision stReg 0 "NICK rosella" "rosella" []
    { nick := "alice", registered := true } (by decide) rfl (by decide)
    (by decide) (Or.inl rfl)

theorem relayChannel_deliver (st : ClientGo.State) (cid : ClientId)
    (m : ClientGo.Msg) (members : List (String × ClientId)) (d : ClientId)
    (hd : d ≠ cid) (hc : ClientGo.connectedIn st d = true)
    (hm : ∃ mk, (mk, d) ∈ members) :
    (d, m) ∈ ClientGo.relayChannel st cid members m := by
  induction members with
  | nil => simp at hm
  | cons p t ih =>
    obtain ⟨mk, hmk⟩ := hm
    rcases List.mem_cons.mp hmk with h | h
    · subst h
      simp [ClientGo.relayChannel, ClientGo.reply, hd, hc]
    · unfold ClientGo.relayChannel
      exact List.mem_append.mpr (Or.inr (ih ⟨mk, h⟩))

/-- Conversely, everything the relay loop emits goes to a member other than
the sender and is the relayed message. -/
theorem relayChannel_mem_inv (st : ClientGo.State) (cid : ClientId)
    (m : ClientGo.Msg) (members : List (String × ClientId)) (p : ClientGo.Out)
    (hp : p ∈ ClientGo.relayChannel st cid members m) :
    p.1 ≠ cid ∧ p.2 = m ∧ ∃ mk, (mk, p.1) ∈ members := by
  induction members with
  | nil => simp [ClientGo.relayChannel] at hp
  | cons q t ih =>
    unfold ClientGo.relayChannel at hp
    rcases List.mem_append.mp hp with h | h
    · by_cases hq : q.2 = cid
      · rw [if_pos hq] at h
        simp at h
      · rw [if_neg hq] at h
        unfold ClientGo.reply at h
        by_cases hc : ClientGo.connectedIn st q.2 = true
        · rw [if_pos hc] at h
          simp at h
          subst h
          exact ⟨hq, rfl, ⟨q.1, by simp⟩⟩
        · rw [if_neg hc] at h
          simp at h
    · obtain ⟨h1, h2, mk, h3⟩ := ih h
      exact ⟨h1, h2, mk, List.mem_cons_of_mem _ h3⟩

/-- C6: PRIVMSG routing of the spec-modelled mode-aware handler.  For a
channel target: unless `noExternal` is set and the sender is not a member,
the message is relayed as `rplMsg` exactly to the members other than the
sender (each connected one receives it, the sender receives nothing, and
nothing goes to a non-member); when `noExternal` is set and the sender is
not a member, the only output is `errCannotSend`.  For a nick target, the
message goes to exactly that one session; otherwise the sender gets
`errNoSuchNick`. -/
theorem c6_privmsg_routing (st : ClientGo.State) (cid : ClientId)
    (target text : String) :
    (∀ ch, alLookup st.server.channelMap target = some ch →
      (¬ (ch.mode.noExternal = true ∧
            alLookup ch.clientMap (ClientGo.keyOf st cid) = none) →
        (∀ d, d ≠ cid → ClientGo.connectedIn st d = true →
          (∃ mk, (mk, d) ∈ ch.clientMap) →
          (d, ClientGo.Msg.privMsg (ClientGo.nickOf st cid) target text) ∈
            ClientGo.privmsgHandle st cid target text) ∧
        (∀ p, p ∈ ClientGo.privmsgHandle st cid target text →
          p.1 ≠ cid ∧
          p.2 = ClientGo.Msg.privMsg (ClientGo.nickOf st cid) target text ∧
          ∃ mk, (mk, p.1) ∈ ch.clientMap)) ∧
      ((ch.mode.noExternal = true ∧
          alLookup ch.clientMap (ClientGo.keyOf st cid) = none) →
        ClientGo.privmsgHandle st cid target text =
          ClientGo.reply st cid (ClientGo.Msg.errCannotSend target))) ∧
    (alLookup st.server.channelMap target = none →
      ∀ did, alLookup st.server.clientMap target = some did →
        ClientGo.privmsgHandle st cid target text =
          ClientGo.reply st did
            (ClientGo.Msg.privMsg (ClientGo.nickOf st cid) (ClientGo.nickOf st did) text)) ∧
    (alLookup st.server.channelMap target = none →
      alLookup st.server.clientMap target = none →
      ClientGo.privmsgHandle st cid target text =
        ClientGo.reply st cid (ClientGo.Msg.errNoSuchNick target)) := by
  refine ⟨?_, ?_, ?_⟩
  · intro ch hch
    constructor
    · intro hok
      have hred : ClientGo.privmsgHandle st cid target text =
          ClientGo.relayChannel st cid ch.clientMap
            (ClientGo.Msg.privMsg (ClientGo.nickOf st cid) target text) := by
        unfold ClientGo.privmsgHandle
        rw [hch]
        simp only [if_neg hok]
      constructor
      · intro d hd hc hm
        rw [hred]
        exact relayChannel_deliver st cid _ ch.clientMap d hd hc hm
      · intro p hp
        rw [hred] at hp
        exact relayChannel_mem_inv st cid _ ch.clientMap p hp
    · intro hbad
      unfold ClientGo.privmsgHandle
      rw [hch]
      simp only [if_pos hbad]
  · intro hch did hdid
    unfold ClientGo.privmsgHandle
    rw [hch, hdid]
  · intro hch hdid
    unfold ClientGo.privmsgHandle
    rw [hch, hdid]

/-- Witness for C6: ann's message to `#priv` reaches bob; eve (not a member,
`noExternal` set) draws `errCannotSend`; a message to an unknown name draws
`errNoSuchNick`. -/
theorem c6_privmsg_routing_witness :
    (1, ClientGo.Msg.privMsg "ann" "#priv" "hello") ∈
      ClientGo.privmsgHandle stPriv 9 "#priv" "hello" ∧
    ClientGo.privmsgHandle stPriv 7 "#priv" "hello" =
      [(7, ClientGo.Msg.errCannotSend "#priv")] ∧
    ClientGo.privmsgHandle stPriv 9 "nosuch" "hi" =
      [(9, ClientGo.Msg.errNoSuchNick "nosuch")] := by
  refine ⟨?_, ?_, ?_⟩
  · exact (((c6_privmsg_routing stPriv 9 "#priv" "hello").1 chPriv (by decide)).1
      (by decide)).1 1 (by decide) (by decide) ⟨"bob", by decide⟩
  · have h := ((c6_privmsg_routing stPriv 7 "#priv" "hello").1 chPriv (by decide)).2
      (by decide)
    exact h.trans (by decide)
  · have h := (c6_privmsg_routing stPriv 9 "nosuch" "hi").2.2 (by decide) (by decide)
    exact h.trans (by decide)

/-! ## Claim C8 — names-list chunking on JOIN -/

/-- The names-list loop of `Client.joinChannel`, run to completion with the
final flush, emits exactly the 128-element chunking of the entry list. -/
theorem namesFold_chunks (st : ClientGo.State) (cid : ClientId)
    (channelName : String) (ch : ClientGo.Channel)
    (hrep : ∀ m, ClientGo.reply st cid m = [(cid, m)]) :
    ∀ (l : List (String × ClientId)) (O : List ClientGo.Out) (nicks : List String),
      nicks.length ≤ 128 →
      (ClientGo.namesFold st cid channelName ch l (O, nicks)).1 ++
        (if 0 < (ClientGo.namesFold st cid channelName ch l (O, nicks)).2.length then
          ClientGo.reply st cid (ClientGo.Msg.names channelName
            (joinSpace (ClientGo.namesFold st cid channelName ch l (O, nicks)).2))
        else []) =
      O ++ (chunksOf (nicks ++ l.map (ClientGo.namesEntry st ch))).map
        (fun ck => (cid, ClientGo.Msg.names channelName (joinSpace ck))) := by
  intro l
  induction l with
  | nil =>
    intro O nicks hlen
    simp only [ClientGo.namesFold, List.map_nil, List.append_nil]
    by_cases h0 : nicks = []
    · subst h0
      simp
    · rw [if_pos (by simpa [List.length_pos] using h0), hrep,
        chunksOf_short nicks hlen h0]
      simp
  | cons p t ih =>
    intro O nicks hlen
    unfold ClientGo.namesFold
    dsimp only
    by_cases h : 128 ≤ nicks.length
    · have h128 : nicks.length = 128 := le_antisymm hlen h
      rw [if_pos h, hrep]
      have hIH := ih (O ++ [(cid, ClientGo.Msg.names channelName (joinSpace nicks))])
        ([] ++ [ClientGo.namesEntry st ch p]) (by simp)
      rw [hIH]
      have hne : nicks ++ ClientGo.namesEntry st ch p :: t.map (ClientGo.namesEntry st ch) ≠ [] := by
        simp
      rw [List.map_cons, chunksOf_of_ne_nil _ hne]
      rw [show nicks ++ ClientGo.namesEntry st ch p :: t.map (ClientGo.namesEntry st ch) =
        nicks ++ (ClientGo.namesEntry st ch p :: t.map (ClientGo.namesEntry st ch)) from rfl]
      rw [← h128, List.take_left, List.drop_left]
      simp
    · rw [if_neg h]
      have hIH := ih O (nicks ++ [ClientGo.namesEntry st ch p])
        (by simp only [List.length_append, List.length_singleton]; omega)
      rw [hIH]
      simp [List.append_assoc]

/-- Every line a broadcast loop emits carries the broadcast message. -/
theorem broadcastMsg_mem_snd (st : ClientGo.State)
    (ms : List (String × ClientId)) (m : ClientGo.Msg) (p : ClientGo.Out)
    (hp : p ∈ ClientGo.broadcastMsg st ms m) : p.2 = m := by
  induction ms with
  | nil => simp [ClientGo.broadcastMsg] at hp
  | cons q t ih =>
    unfold ClientGo.broadcastMsg at hp
    rcases List.mem_append.mp hp with h | h
    · unfold ClientGo.reply at h
      by_cases hc : ClientGo.connectedIn st q.2 = true
      · rw [if_pos hc] at h
        simp at h
        simp [h]
      · rw [if_neg hc] at h
        simp at h
    · exact ih h

/-- C8: on a successful JOIN (the membership insertion `joinInsert`
succeeded, producing post-state `st2` and updated channel `ch1`), the names
traffic sent to the joiner is a sequence of 353 replies carrying the
128-element chunks of the member entry list followed by exactly one 366
reply; every chunk has at most 128 entries and is non-empty, and a channel
with more than 128 members yields at least two 353 replies. -/
theorem c8_names_chunking (st : ClientGo.State) (cid : ClientId)
    (channelName : String) (st2 : ClientGo.State) (ch1 : ClientGo.Channel)
    (H1 : ClientGo.joinInsert st cid channelName = some (st2, ch1))
    (H2 : ClientGo.connectedIn st2 cid = true) :
    ClientGo.namesTraffic (ClientGo.joinChannel st cid channelName).2 cid =
      (chunksOf (ch1.clientMap.map (ClientGo.namesEntry st2 ch1))).map
        (fun ck => (cid, ClientGo.Msg.names channelName (joinSpace ck))) ++
      [(cid, ClientGo.Msg.endOfNames channelName)] ∧
    (∀ ck ∈ chunksOf (ch1.clientMap.map (ClientGo.namesEntry st2 ch1)),
      ck.length ≤ 128 ∧ ck ≠ []) ∧
    (128 < ch1.clientMap.length →
      2 ≤ (chunksOf (ch1.clientMap.map (ClientGo.namesEntry st2 ch1))).length) := by
  have hrep : ∀ m, ClientGo.reply st2 cid m = [(cid, m)] := by
    intro m
    simp [ClientGo.reply, H2]
  refine ⟨?_, ?_, ?_⟩
  · unfold ClientGo.joinChannel
    rw [H1]
    dsimp only
    rw [namesFold_chunks st2 cid channelName ch1 hrep ch1.clientMap [] [] (by simp)]
    have hb : ∀ p ∈ ClientGo.broadcastMsg st2 ch1.clientMap
        (ClientGo.Msg.join (ClientGo.nickOf st2 cid) ch1.name),
        (decide (p.1 = cid) &&
          (ClientGo.Msg.isNames p.2 || ClientGo.Msg.isEndOfNames p.2)) = false := by
      intro p hp
      have h2 := broadcastMsg_mem_snd st2 ch1.clientMap _ p hp
      simp [h2, ClientGo.Msg.isNames, ClientGo.Msg.isEndOfNames]
    have hto : ∀ p ∈ (if ch1.topic ≠ "" then
          ClientGo.reply st2 cid (ClientGo.Msg.topicIs ch1.name ch1.topic)
        else ClientGo.reply st2 cid (ClientGo.Msg.noTopic ch1.name)),
        (decide (p.1 = cid) &&
          (ClientGo.Msg.isNames p.2 || ClientGo.Msg.isEndOfNames p.2)) = false := by
      intro p hp
      by_cases ht : ch1.topic ≠ ""
      · rw [if_pos ht, hrep] at hp
        simp at hp
        simp [hp, ClientGo.Msg.isNames, ClientGo.Msg.isEndOfNames]
      · rw [if_neg ht, hrep] at hp
        simp at hp
        simp [hp, ClientGo.Msg.isNames, ClientGo.Msg.isEndOfNames]
    unfold ClientGo.namesTraffic
    rw [List.filter_append, List.filter_append, List.filter_append]
    rw [List.filter_eq_nil_iff.mpr (by simpa using hb)]
    rw [List.filter_eq_nil_iff.mpr (by simpa using hto)]
    rw [hrep]
    simp only [List.nil_append]
    have hk : List.filter (fun p =>
        decide (p.1 = cid) &&
          (ClientGo.Msg.isNames p.2 || ClientGo.Msg.isEndOfNames p.2))
        ((chunksOf (ch1.clientMap.map (ClientGo.namesEntry st2 ch1))).map
          (fun ck => (cid, ClientGo.Msg.names channelName (joinSpace ck)))) =
        (chunksOf (ch1.clientMap.map (ClientGo.namesEntry st2 ch1))).map
          (fun ck => (cid, ClientGo.Msg.names channelName (joinSpace ck))) := by
      rw [List.filter_eq_self]
      intro p hp
      rcases List.mem_map.mp hp with ⟨ck, _, hck⟩
      subst hck
      simp [ClientGo.Msg.isNames]
    rw [hk]
    simp [ClientGo.Msg.isEndOfNames]
  · intro ck hck
    exact ⟨chunksOf_mem_length_le _ ck hck, chunksOf_mem_ne_nil _ ck hck⟩
  · intro hlen
    apply chunksOf_length_ge_two
    simpa using hlen

/-- Witness for C8: eve joins `#room` (two members): one 353 line carrying
`@ann eve`-style entries, then the single 366. -/
theorem c8_names_chunking_witness :
    ClientGo.namesTraffic (ClientGo.joinChannel stSolo 7 "#room").2 7 =
      (chunksOf (chRoomJ.clientMap.map (ClientGo.namesEntry stSoloJ chRoomJ))).map
        (fun ck => (7, ClientGo.Msg.names "#room" (joinSpace ck))) ++
      [(7, ClientGo.Msg.endOfNames "#room")] :=
  (c8_names_chunking stSolo 7 "#room" stSoloJ chRoomJ (by decide) (by decide)).1

/-! ## Claims C1 and C2 — `Client.setNick` -/

/-- A surviving entry of a deletion is not keyed by the deleted key. -/
theorem mem_alDelete_key_ne {κ α : Type} [DecidableEq κ]
    (l : List (κ × α)) (key : κ) (p : κ × α)
    (h : p ∈ alDelete l key) : p.1 ≠ key := by
  induction l with
  | nil => simp [alDelete] at h
  | cons q t ih =>
    obtain ⟨k, w⟩ := q
    by_cases hk : k = key
    · simp [alDelete, hk] at h
      exact ih h
    · simp [alDelete, hk] at h
      rcases h with h | h
      · simp [h, hk]
      · exact ih h

/-- An entry under a different key survives a deletion. -/
theorem mem_alDelete_of_ne {κ α : Type} [DecidableEq κ]
    (l : List (κ × α)) (key : κ) (p : κ × α)
    (h : p ∈ l) (hne : p.1 ≠ key) : p ∈ alDelete l key := by
  induction l with
  | nil => simp at h
  | cons q t ih =>
    obtain ⟨k, w⟩ := q
    by_cases hk : k = key
    · simp [alDelete, hk]
      rcases List.mem_cons.mp h with h' | h'
      · subst h'
        simp at hne
        exact absurd hk hne
      · exact ih h'
    · simp only [alDelete, if_neg hk]
      rcases List.mem_cons.mp h with h' | h'
      · simp [h']
      · exact List.mem_cons_of_mem _ (ih h')

/-- Message counting distributes over concatenation of output lists. -/
theorem countOut_append (A B : List ClientGo.Out) (d : ClientId)
    (p : ClientGo.Msg → Bool) :
    ClientGo.countOut (A ++ B) d p =
      ClientGo.countOut A d p + ClientGo.countOut B d p := by
  induction A with
  | nil => simp [ClientGo.countOut]
  | cons q t ih =>
    obtain ⟨r, m⟩ := q
    show (if r = d ∧ p m = true then 1 else 0) + ClientGo.countOut (t ++ B) d p =
      ((if r = d ∧ p m = true then 1 else 0) + ClientGo.countOut t d p) +
        ClientGo.countOut B d p
    rw [ih]
    omega

/-- After the notification walk of one member table, the visited set holds
exactly the previously visited sessions and that table's members. -/
theorem setNickVisit_visited (st : ClientGo.State) (oldNick newNick : String) :
    ∀ (ms : List (String × ClientId)) (acc : List ClientGo.Out × List ClientId)
      (d : ClientId),
      (d ∈ (ClientGo.setNickVisit st oldNick newNick ms acc).2 ↔
        d ∈ acc.2 ∨ d ∈ ms.map Prod.snd) := by
  intro ms
  induction ms with
  | nil =>
    intro acc d
    simp [ClientGo.setNickVisit]
  | cons q t ih =>
    intro acc d
    unfold ClientGo.setNickVisit
    by_cases hq : q.2 ∈ acc.2
    · rw [if_pos hq]
      rw [ih acc d]
      simp only [List.map_cons, List.mem_cons]
      constructor
      · rintro (h | h)
        · exact Or.inl h
        · exact Or.inr (Or.inr h)
      · rintro (h | h | h)
        · exact Or.inl h
        · exact Or.inl (by rw [h]; exact hq)
        · exact Or.inr h
    · rw [if_neg hq]
      rw [ih _ d]
      simp only [List.map_cons, List.mem_cons]
      tauto

/-- The notification walk of one member table adds exactly one
`rplNickChange` for each connected, not-yet-visited member and nothing for
anyone else. -/
theorem setNickVisit_count (st : ClientGo.State) (oldNick newNick : String) :
    ∀ (ms : List (String × ClientId)) (acc : List ClientGo.Out × List ClientId)
      (d : ClientId),
      ClientGo.countOut (ClientGo.setNickVisit st oldNick newNick ms acc).1 d
          ClientGo.Msg.isNickChange =
        ClientGo.countOut acc.1 d ClientGo.Msg.isNickChange +
          (if d ∈ acc.2 then 0
           else if d ∈ ms.map Prod.snd then
             (if ClientGo.connectedIn st d = true then 1 else 0)
           else 0) := by
  intro ms
  induction ms with
  | nil =>
    intro acc d
    simp [ClientGo.setNickVisit]
  | cons q t ih =>
    intro acc d
    unfold ClientGo.setNickVisit
    by_cases hq : q.2 ∈ acc.2
    · rw [if_pos hq]
      rw [ih acc d]
      by_cases hd : d ∈ acc.2
      · simp [hd]
      · have hdq : d ≠ q.2 := by
          intro he
          exact hd (he ▸ hq)
        simp only [List.map_cons, List.mem_cons, hdq, false_or]
    · rw [if_neg hq]
      rw [ih _ d, countOut_append]
      by_cases hd2 : d = q.2
      · subst hd2
        by_cases hc : ClientGo.connectedIn st q.2 = true
        · simp [ClientGo.reply, hc, ClientGo.countOut, hq,
            ClientGo.Msg.isNickChange, List.mem_cons]
        · simp [ClientGo.reply, hc, ClientGo.countOut, hq,
            ClientGo.Msg.isNickChange, List.mem_cons]
      · have t1 : ClientGo.countOut
            (ClientGo.reply st q.2 (ClientGo.Msg.nickChange oldNick newNick)) d
            ClientGo.Msg.isNickChange = 0 := by
          unfold ClientGo.reply
          by_cases hc : ClientGo.connectedIn st q.2 = true
          · rw [if_pos hc]
            simp [ClientGo.countOut, Ne.symm hd2]
          · rw [if_neg hc]
            simp [ClientGo.countOut]
        rw [t1]
        simp only [List.map_cons, List.mem_cons, hd2, false_or]
        omega

/-- Unfolding of membership in the ids walked by the channel loop. -/
theorem loopMembers_mem_iff (st : ClientGo.State) (oldKey : String)
    (ks : List String) (d : ClientId) :
    d ∈ ClientGo.loopMembers st oldKey ks ↔
      ∃ k ∈ ks, ∃ ch, alLookup st.server.channelMap k = some ch ∧
        ∃ p ∈ alDelete ch.clientMap oldKey, p.2 = d := by
  induction ks with
  | nil => simp [ClientGo.loopMembers]
  | cons k t ih =>
    unfold ClientGo.loopMembers
    rw [List.mem_append, ih]
    constructor
    · rintro (h | ⟨k', hk', ch, hch, p, hp, hpd⟩)
      · cases hch : alLookup st.server.channelMap k with
        | none =>
          rw [hch] at h
          simp at h
        | some ch =>
          rw [hch] at h
          rcases List.mem_map.mp h with ⟨p, hp, hpd⟩
          exact ⟨k, List.mem_cons_self _ _, ch, hch, p, hp, hpd⟩
      · exact ⟨k', List.mem_cons_of_mem _ hk', ch, hch, p, hp, hpd⟩
    · rintro ⟨k', hk', ch, hch, p, hp, hpd⟩
      rcases List.mem_cons.mp hk' with h' | h'
      · subst h'
        left
        rw [hch]
        exact List.mem_map.mpr ⟨p, hp, hpd⟩
      · right
        exact ⟨k', h', ch, hch, p, hp, hpd⟩

/-- The walked ids depend only on the channel directory entries of the
listed keys. -/
theorem loopMembers_congr (stA stB : ClientGo.State) (oldKey : String)
    (ks : List String)
    (h : ∀ k ∈ ks, alLookup stA.server.channelMap k =
      alLookup stB.server.channelMap k) :
    ClientGo.loopMembers stA oldKey ks = ClientGo.loopMembers stB oldKey ks := by
  induction ks with
  | nil => rfl
  | cons k t ih =>
    unfold ClientGo.loopMembers
    rw [h k (List.mem_cons_self _ _),
      ih (fun k' hk' => h k' (List.mem_cons_of_mem _ hk'))]

/-- The channel loop of `setNick` never touches the client store or the
server's nick directory. -/
theorem setNickChannels_clients (oldKey oldNick newKey newNick : String)
    (cid : ClientId) :
    ∀ (ks : List String) (st : ClientGo.State)
      (acc : List ClientGo.Out × List ClientId),
      (ClientGo.setNickChannels oldKey oldNick newKey newNick cid ks st acc).1.clients
        = st.clients ∧
      (ClientGo.setNickChannels oldKey oldNick newKey newNick cid ks st acc).1.server.clientMap
        = st.server.clientMap := by
  intro ks
  induction ks with
  | nil =>
    intro st acc
    exact ⟨rfl, rfl⟩
  | cons k t ih =>
    intro st acc
    unfold ClientGo.setNickChannels
    split
    · exact ih st acc
    · exact ⟨(ih _ _).1.trans rfl, (ih _ _).2.trans rfl⟩

/-- Directory lookup after storing a channel at its own key. -/
theorem lookup_updateChannel_self (st : ClientGo.State) (k : String)
    (ch : ClientGo.Channel) :
    alLookup (ClientGo.updateChannel st k ch).server.channelMap k = some ch := by
  simp [ClientGo.updateChannel, alLookup_alInsert_self]

/-- Storing a channel leaves other directory keys unchanged. -/
theorem lookup_updateChannel_ne (st : ClientGo.State) (k : String)
    (ch : ClientGo.Channel) (k' : String) (h : k ≠ k') :
    alLookup (ClientGo.updateChannel st k ch).server.channelMap k' =
      alLookup st.server.channelMap k' := by
  simp [ClientGo.updateChannel, alLookup_alInsert_ne _ _ _ _ h]

/-- Storing a channel does not change any session's `connected` flag. -/
theorem connectedIn_updateChannel (st : ClientGo.State) (k : String)
    (ch : ClientGo.Channel) (d : ClientId) :
    ClientGo.connectedIn (ClientGo.updateChannel st k ch) d =
      ClientGo.connectedIn st d := rfl

/-- The channel loop leaves channels outside the session's channel list
untouched. -/
theorem setNickChannels_lookup_ne (oldKey oldNick newKey newNick : String)
    (cid : ClientId) :
    ∀ (ks : List String) (st : ClientGo.State)
      (acc : List ClientGo.Out × List ClientId) (k' : String), k' ∉ ks →
      alLookup (ClientGo.setNickChannels oldKey oldNick newKey newNick cid
          ks st acc).1.server.channelMap k'
        = alLookup st.server.channelMap k' := by
  intro ks
  induction ks with
  | nil =>
    intro st acc k' _
    rfl
  | cons k t ih =>
    intro st acc k' hk'
    have hk't : k' ∉ t := fun h => hk' (List.mem_cons_of_mem _ h)
    have hk'k : k ≠ k' := fun h => hk' (h ▸ List.mem_cons_self _ _)
    unfold ClientGo.setNickChannels
    split
    · exact ih st acc k' hk't
    · rw [ih _ _ k' hk't, lookup_updateChannel_ne _ _ _ _ hk'k,
        lookup_updateChannel_ne _ _ _ _ hk'k]

/-- The channel loop rewrites each listed channel to its re-keyed form. -/
theorem setNickChannels_lookup_mem (oldKey oldNick newKey newNick : String)
    (cid : ClientId) :
    ∀ (ks : List String) (st : ClientGo.State)
      (acc : List ClientGo.Out × List ClientId), ks.Nodup →
      ∀ k ∈ ks, ∀ ch, alLookup st.server.channelMap k = some ch →
      alLookup (ClientGo.setNickChannels oldKey oldNick newKey newNick cid
          ks st acc).1.server.channelMap k
        = some (ClientGo.rekeyChannel ch oldKey newKey cid) := by
  intro ks
  induction ks with
  | nil =>
    intro st acc _ k hk
    exact absurd hk (List.not_mem_nil k)
  | cons k0 t ih =>
    intro st acc hnd k hk ch hch
    obtain ⟨hk0t, htnd⟩ := List.nodup_cons.mp hnd
    unfold ClientGo.setNickChannels
    split
    · rename_i heq
      rcases List.mem_cons.mp hk with h' | h'
      · subst h'
        rw [hch] at heq
        exact Option.noConfusion heq
      · exact ih st acc htnd k h' ch hch
    · rename_i ch0 heq
      rcases List.mem_cons.mp hk with h' | h'
      · subst h'
        rw [hch] at heq
        injection heq with heq
        subst heq
        rw [setNickChannels_lookup_ne oldKey oldNick newKey newNick cid t _ _ k hk0t,
          lookup_updateChannel_self]
        rfl
      · have hne : k0 ≠ k := fun h => hk0t (h ▸ h')
        refine ih _ _ htnd k h' ch ?_
        rw [lookup_updateChannel_ne _ _ _ _ hne, lookup_updateChannel_ne _ _ _ _ hne]
        exact hch

/-- Unfolding of the channel loop on a key absent from the directory
(unreachable in Go, where the session holds the `*Channel` itself). -/
theorem setNickChannels_cons_none (oldKey oldNick newKey newNick : String)
    (cid : ClientId) (k : String) (ks : List String) (st : ClientGo.State)
    (acc : List ClientGo.Out × List ClientId)
    (hch : alLookup st.server.channelMap k = none) :
    ClientGo.setNickChannels oldKey oldNick newKey newNick cid (k :: ks) st acc =
      ClientGo.setNickChannels oldKey oldNick newKey newNick cid ks st acc := by
  conv_lhs => unfold ClientGo.setNickChannels
  rw [hch]

/-- Unfolding of one iteration of the channel loop. -/
theorem setNickChannels_cons_some (oldKey oldNick newKey newNick : String)
    (cid : ClientId) (k : String) (ks : List String) (st : ClientGo.State)
    (acc : List ClientGo.Out × List ClientId) (ch : ClientGo.Channel)
    (hch : alLookup st.server.channelMap k = some ch) :
    ClientGo.setNickChannels oldKey oldNick newKey newNick cid (k :: ks) st acc =
      ClientGo.setNickChannels oldKey oldNick newKey newNick cid ks
        (ClientGo.updateChannel
          (ClientGo.updateChannel st k
            { ch with clientMap := alDelete ch.clientMap oldKey })
          k (ClientGo.rekeyChannel ch oldKey newKey cid))
        (ClientGo.setNickVisit
          (ClientGo.updateChannel st k
            { ch with clientMap := alDelete ch.clientMap oldKey })
          oldNick newNick (alDelete ch.clientMap oldKey) acc) := by
  conv_lhs => unfold ClientGo.setNickChannels
  rw [hch]
  rfl

/-- Over the whole channel loop, every connected session visible in some
listed channel (after the old key is removed) and not among the already
visited ones receives exactly one `rplNickChange`; nobody else receives
any. -/
theorem setNickChannels_count (oldKey oldNick newKey newNick : String)
    (cid : ClientId) :
    ∀ (ks : List String) (st : ClientGo.State)
      (acc : List ClientGo.Out × List ClientId) (d : ClientId), ks.Nodup →
      ClientGo.countOut
        (ClientGo.setNickChannels oldKey oldNick newKey newNick cid ks st acc).2 d
        ClientGo.Msg.isNickChange =
      ClientGo.countOut acc.1 d ClientGo.Msg.isNickChange +
        (if d ∈ acc.2 then 0
         else if d ∈ ClientGo.loopMembers st oldKey ks then
           (if ClientGo.connectedIn st d = true then 1 else 0)
         else 0) := by
  intro ks
  induction ks with
  | nil =>
    intro st acc d _
    simp [ClientGo.setNickChannels, ClientGo.loopMembers]
  | cons k t ih =>
    intro st acc d hnd
    obtain ⟨hkt, htnd⟩ := List.nodup_cons.mp hnd
    cases hch : alLookup st.server.channelMap k with
    | none =>
      rw [setNickChannels_cons_none oldKey oldNick newKey newNick cid k t st acc hch]
      rw [ih st acc d htnd]
      have hlm : ClientGo.loopMembers st oldKey (k :: t) =
          ClientGo.loopMembers st oldKey t := by
        conv_lhs => unfold ClientGo.loopMembers
        rw [hch, List.nil_append]
      rw [hlm]
    | some ch =>
      rw [setNickChannels_cons_some oldKey oldNick newKey newNick cid k t st acc ch hch]
      rw [ih _ _ d htnd]
      rw [setNickVisit_count]
      have hvis := setNickVisit_visited
        (ClientGo.updateChannel st k
          { ch with clientMap := alDelete ch.clientMap oldKey })
        oldNick newNick (alDelete ch.clientMap oldKey) acc d
      simp only [connectedIn_updateChannel] at *
      have hlm2 : ClientGo.loopMembers
          (ClientGo.updateChannel
            (ClientGo.updateChannel st k
              { ch with clientMap := alDelete ch.clientMap oldKey })
            k (ClientGo.rekeyChannel ch oldKey newKey cid)) oldKey t =
          ClientGo.loopMembers st oldKey t := by
        refine loopMembers_congr _ _ _ _ ?_
        intro k' hk'
        have hne : k ≠ k' := fun h => hkt (h ▸ hk')
        rw [lookup_updateChannel_ne _ _ _ _ hne, lookup_updateChannel_ne _ _ _ _ hne]
      rw [hlm2]
      have hlc : ClientGo.loopMembers st oldKey (k :: t) =
          (alDelete ch.clientMap oldKey).map Prod.snd ++
            ClientGo.loopMembers st oldKey t := by
        conv_lhs => unfold ClientGo.loopMembers
        rw [hch]
      rw [hlc]
      by_cases hacc : d ∈ acc.2
      · have h1 := hvis.mpr (Or.inl hacc)
        simp only [hacc, h1, if_true]
      · by_cases hM : d ∈ (alDelete ch.clientMap oldKey).map Prod.snd
        · have h1 := hvis.mpr (Or.inr hM)
          have hML : d ∈ (alDelete ch.clientMap oldKey).map Prod.snd ++
              ClientGo.loopMembers st oldKey t := List.mem_append.mpr (Or.inl hM)
          simp only [hacc, hM, h1, hML, if_true, if_false]
          omega
        · have h1 : d ∉ (ClientGo.setNickVisit
              (ClientGo.updateChannel st k
                { ch with clientMap := alDelete ch.clientMap oldKey })
              oldNick newNick (alDelete ch.clientMap oldKey) acc).2 :=
            fun h => (hvis.mp h).elim hacc hM
          by_cases hL : d ∈ ClientGo.loopMembers st oldKey t
          · have hML : d ∈ (alDelete ch.clientMap oldKey).map Prod.snd ++
                ClientGo.loopMembers st oldKey t := List.mem_append.mpr (Or.inr hL)
            simp only [hacc, hM, h1, hL, hML, if_true, if_false]
            omega
          · have hML : d ∉ (alDelete ch.clientMap oldKey).map Prod.snd ++
                ClientGo.loopMembers st oldKey t :=
              fun h => (List.mem_append.mp h).elim hM hL
            simp only [hacc, hM, h1, hL, hML, if_true, if_false]

/-- `connected` only depends on the session's own record. -/
theorem connectedIn_congr (stA stB : ClientGo.State) (d : ClientId)
    (h : ClientGo.clientAt stA d = ClientGo.clientAt stB d) :
    ClientGo.connectedIn stA d = ClientGo.connectedIn stB d := by
  unfold ClientGo.connectedIn
  rw [h]

/-- Unfolding of the channel-sharing test. -/
theorem sharesWith_eq_true_iff (st : ClientGo.State) (cKeys : List String)
    (d : ClientId) :
    ClientGo.sharesWith st cKeys d = true ↔
      ∃ k ∈ cKeys, ∃ ch, alLookup st.server.channelMap k = some ch ∧
        ∃ p ∈ ch.clientMap, p.2 = d := by
  unfold ClientGo.sharesWith
  rw [List.any_eq_true]
  constructor
  · rintro ⟨k, hk, hcond⟩
    cases hch : alLookup st.server.channelMap k with
    | none =>
      rw [hch] at hcond
      simp at hcond
    | some ch =>
      rw [hch] at hcond
      rw [List.any_eq_true] at hcond
      obtain ⟨p, hp, hpd⟩ := hcond
      exact ⟨k, hk, ch, hch, p, hp, by simpa using hpd⟩
  · rintro ⟨k, hk, ch, hch, p, hp, hpd⟩
    refine ⟨k, hk, ?_⟩
    rw [hch, List.any_eq_true]
    exact ⟨p, hp, by simp [hpd]⟩

/-- `Client.setNick` is its channel loop run from the re-keyed state, with
the self-notification already enqueued. -/
theorem setNick_eq (st : ClientGo.State) (cid : ClientId) (newNick : String)
    (c : ClientGo.Client)
    (H1 : ClientGo.clientAt st cid = some c)
    (H2 : c.connected = true) :
    ClientGo.setNick st cid newNick =
      ClientGo.setNickChannels c.key c.nick (lowerStr newNick) newNick cid
        c.channelMap (ClientGo.setNickState st cid c newNick)
        ([(cid, ClientGo.Msg.nickChange c.nick newNick)], []) := by
  have hconn : ClientGo.connectedIn (ClientGo.setNickState st cid c newNick) cid = true := by
    simp [ClientGo.setNickState, ClientGo.connectedIn, ClientGo.clientAt,
      alLookup_alInsert_self, H2]
  unfold ClientGo.setNick
  rw [H1]
  show ClientGo.setNickChannels c.key c.nick (lowerStr newNick) newNick cid
      c.channelMap (ClientGo.setNickState st cid c newNick)
      (ClientGo.reply (ClientGo.setNickState st cid c newNick) cid
        (ClientGo.Msg.nickChange c.nick newNick), []) = _
  unfold ClientGo.reply
  rw [if_pos hconn]

/-- C1: a NICK change performed by `Client.setNick` enqueues exactly one
`rplNickChange` for the session itself, exactly one for every other
connected session that shares at least one channel with it, and none for a
session that shares no channel.  The hypotheses state well-formedness of the
reachable state: the session's channel-key list has no duplicates, and in
each of its channels the session appears exactly under its own key. -/
theorem c1_setNick_notifications (st : ClientGo.State) (cid : ClientId)
    (newNick : String) (c : ClientGo.Client)
    (H1 : ClientGo.clientAt st cid = some c)
    (H2 : c.connected = true)
    (H3 : c.channelMap.Nodup)
    (H4 : ∀ k ∈ c.channelMap, ∀ ch,
      alLookup st.server.channelMap k = some ch →
      ∀ p ∈ ch.clientMap, (p.2 = cid → p.1 = c.key) ∧ (p.1 = c.key → p.2 = cid)) :
    ClientGo.countOut (ClientGo.setNick st cid newNick).2 cid
        ClientGo.Msg.isNickChange = 1 ∧
    (∀ d, d ≠ cid → ClientGo.connectedIn st d = true →
      ClientGo.sharesWith st c.channelMap d = true →
      ClientGo.countOut (ClientGo.setNick st cid newNick).2 d
        ClientGo.Msg.isNickChange = 1) ∧
    (∀ d, d ≠ cid → ClientGo.sharesWith st c.channelMap d = false →
      ClientGo.countOut (ClientGo.setNick st cid newNick).2 d
        ClientGo.Msg.isNickChange = 0) := by
  rw [setNick_eq st cid newNick c H1 H2]
  have hcmeq : ∀ k' ∈ c.channelMap,
      alLookup (ClientGo.setNickState st cid c newNick).server.channelMap k' =
        alLookup st.server.channelMap k' := fun k' _ => rfl
  have hlm : ClientGo.loopMembers (ClientGo.setNickState st cid c newNick) c.key
      c.channelMap = ClientGo.loopMembers st c.key c.channelMap :=
    loopMembers_congr _ _ _ _ hcmeq
  refine ⟨?_, ?_, ?_⟩
  · rw [setNickChannels_count c.key c.nick (lowerStr newNick) newNick cid
      c.channelMap _ _ cid H3]
    have hnotin : cid ∉ ClientGo.loopMembers (ClientGo.setNickState st cid c newNick)
        c.key c.channelMap := by
      rw [hlm]
      intro hx
      obtain ⟨k, hk, ch, hch, p, hp, hpd⟩ := (loopMembers_mem_iff st c.key
        c.channelMap cid).mp hx
      have h5 := (H4 k hk ch hch p (mem_alDelete _ _ _ hp)).1 hpd
      exact mem_alDelete_key_ne _ _ _ hp h5
    simp [ClientGo.countOut, ClientGo.Msg.isNickChange, hnotin]
  · intro d hd hconn hsh
    rw [setNickChannels_count c.key c.nick (lowerStr newNick) newNick cid
      c.channelMap _ _ d H3]
    obtain ⟨k, hk, ch, hch, p, hp, hpd⟩ :=
      (sharesWith_eq_true_iff st c.channelMap d).mp hsh
    have hpne : p.1 ≠ c.key := by
      intro he
      exact hd (hpd ▸ (H4 k hk ch hch p hp).2 he)
    have hin : d ∈ ClientGo.loopMembers (ClientGo.setNickState st cid c newNick)
        c.key c.channelMap := by
      rw [hlm]
      exact (loopMembers_mem_iff st c.key c.channelMap d).mpr
        ⟨k, hk, ch, hch, p, mem_alDelete_of_ne _ _ _ hp hpne, hpd⟩
    have hconn2 : ClientGo.connectedIn (ClientGo.setNickState st cid c newNick) d = true := by
      rw [connectedIn_congr (ClientGo.setNickState st cid c newNick) st d ?_]
      · exact hconn
      · show alLookup (alInsert st.clients cid _) d = alLookup st.clients d
        exact alLookup_alInsert_ne _ _ _ _ (Ne.symm hd)
    simp [ClientGo.countOut, ClientGo.Msg.isNickChange, Ne.symm hd, hin, hconn2]
  · intro d hd hsh
    rw [setNickChannels_count c.key c.nick (lowerStr newNick) newNick cid
      c.channelMap _ _ d H3]
    have hnotin : d ∉ ClientGo.loopMembers (ClientGo.setNickState st cid c newNick)
        c.key c.channelMap := by
      rw [hlm]
      intro hx
      obtain ⟨k, hk, ch, hch, p, hp, hpd⟩ := (loopMembers_mem_iff st c.key
        c.channelMap d).mp hx
      have : ClientGo.sharesWith st c.channelMap d = true :=
        (sharesWith_eq_true_iff st c.channelMap d).mpr
          ⟨k, hk, ch, hch, p, mem_alDelete _ _ _ hp, hpd⟩
      rw [this] at hsh
      exact Bool.noConfusion hsh
    simp [ClientGo.countOut, ClientGo.Msg.isNickChange, Ne.symm hd, hnotin]

/-- Witness for C1 (spec §8 scenario 4): alice (0, sharing `#r1` with bob
and `#r2` with carol) changes nick; alice and bob get exactly one
`rplNickChange`, dave (no shared channel) gets none. -/
theorem c1_setNick_notifications_witness :
    ClientGo.countOut (ClientGo.setNick stVis 0 "alice2").2 0
        ClientGo.Msg.isNickChange = 1 ∧
    ClientGo.countOut (ClientGo.setNick stVis 0 "alice2").2 1
        ClientGo.Msg.isNickChange = 1 ∧
    ClientGo.countOut (ClientGo.setNick stVis 0 "alice2").2 3
        ClientGo.Msg.isNickChange = 0 := by
  have h4 : ∀ k ∈ (["#r1", "#r2"] : List String), ∀ ch : ClientGo.Channel,
      alLookup stVis.server.channelMap k = some ch →
      ∀ p ∈ ch.clientMap, (p.2 = 0 → p.1 = "alice") ∧ (p.1 = "alice" → p.2 = 0) := by
    intro k hk ch hch
    rcases List.mem_cons.mp hk with h | h
    · subst h
      have h0 : alLookup stVis.server.channelMap "#r1" = some chR1 := by decide
      rw [h0] at hch
      injection hch with hch
      subst hch
      decide
    · rcases List.mem_cons.mp h with h' | h'
      · subst h'
        have h0 : alLookup stVis.server.channelMap "#r2" = some chR2 := by decide
        rw [h0] at hch
        injection hch with hch
        subst hch
        decide
      · simp at h'
  have h := c1_setNick_notifications stVis 0 "alice2"
    { nick := "alice", key := "alice", channelMap := ["#r1", "#r2"] }
    (by decide) rfl (by decide) h4
  exact ⟨h.1, h.2.1 1 (by decide) (by decide) (by decide),
    h.2.2 3 (by decide) (by decide)⟩

/-- Counterexample for C2: the case-only rename `Bob` to `BOB` (new key =
old key `bob`).  Afterwards `clientMap` still contains the old key — the
claim requires it gone — and the channel's mode entry has been deleted
(`modeMap` is empty) instead of carried across, because `client.go` line 40
inserts at the new key and line 41 then deletes the old = new key. -/
theorem c2_counterexample :
    alLookup (ClientGo.setNick stCaseRename 0 "BOB").1.server.clientMap "bob" =
      some 0 ∧
    (alLookup (ClientGo.setNick stCaseRename 0 "BOB").1.server.channelMap "#a").map
      ClientGo.Channel.modeMap = some [] := by
  constructor
  · rfl
  · rfl

/-- C2 (amended): when the new key `lower(newNick)` differs from the old key,
`setNick` re-keys `clientMap` (new key bound to the session, old key gone,
all other keys untouched), updates the session's record, and in every channel
the session belongs to re-keys the member and mode tables with the mode
value carried across (given that a mode entry exists, as it does in every
reachable state), leaving all other keys and all other channels untouched. -/
theorem c2_setNick_rekeying (st : ClientGo.State) (cid : ClientId)
    (newNick : String) (c : ClientGo.Client)
    (H1 : ClientGo.clientAt st cid = some c)
    (H2 : c.connected = true)
    (H3 : c.channelMap.Nodup)
    (Hne : lowerStr newNick ≠ c.key)
    (Hmode : ∀ k ∈ c.channelMap, ∀ ch,
      alLookup st.server.channelMap k = some ch →
      (alLookup ch.modeMap c.key).isSome = true) :
    alLookup (ClientGo.setNick st cid newNick).1.server.clientMap
      (lowerStr newNick) = some cid ∧
    alLookup (ClientGo.setNick st cid newNick).1.server.clientMap c.key = none ∧
    (∀ k', k' ≠ c.key → k' ≠ lowerStr newNick →
      alLookup (ClientGo.setNick st cid newNick).1.server.clientMap k' =
        alLookup st.server.clientMap k') ∧
    ClientGo.clientAt (ClientGo.setNick st cid newNick).1 cid =
      some { c with nick := newNick, key := lowerStr newNick } ∧
    (∀ d, d ≠ cid → ClientGo.clientAt (ClientGo.setNick st cid newNick).1 d =
      ClientGo.clientAt st d) ∧
    (∀ k ∈ c.channelMap, ∀ ch, alLookup st.server.channelMap k = some ch →
      ∃ ch', alLookup (ClientGo.setNick st cid newNick).1.server.channelMap k =
          some ch' ∧
        alLookup ch'.clientMap (lowerStr newNick) = some cid ∧
        alLookup ch'.clientMap c.key = none ∧
        (∀ mk, mk ≠ c.key → mk ≠ lowerStr newNick →
          alLookup ch'.clientMap mk = alLookup ch.clientMap mk) ∧
        alLookup ch'.modeMap (lowerStr newNick) = alLookup ch.modeMap c.key ∧
        alLookup ch'.modeMap c.key = none ∧
        (∀ mk, mk ≠ c.key → mk ≠ lowerStr newNick →
          alLookup ch'.modeMap mk = alLookup ch.modeMap mk)) ∧
    (∀ k, k ∉ c.channelMap →
      alLookup (ClientGo.setNick st cid newNick).1.server.channelMap k =
        alLookup st.server.channelMap k) := by
  rw [setNick_eq st cid newNick c H1 H2]
  have hcl := setNickChannels_clients c.key c.nick (lowerStr newNick) newNick cid
    c.channelMap (ClientGo.setNickState st cid c newNick)
    ([(cid, ClientGo.Msg.nickChange c.nick newNick)], [])
  refine ⟨?_, ?_, ?_, ?_, ?_, ?_, ?_⟩
  · rw [hcl.2]
    show alLookup (alInsert (alDelete st.server.clientMap c.key)
      (lowerStr newNick) cid) (lowerStr newNick) = some cid
    exact alLookup_alInsert_self _ _ _
  · rw [hcl.2]
    show alLookup (alInsert (alDelete st.server.clientMap c.key)
      (lowerStr newNick) cid) c.key = none
    rw [alLookup_alInsert_ne _ _ _ _ Hne]
    exact alLookup_alDelete_self _ _
  · intro k' hk1 hk2
    rw [hcl.2]
    show alLookup (alInsert (alDelete st.server.clientMap c.key)
      (lowerStr newNick) cid) k' = alLookup st.server.clientMap k'
    rw [alLookup_alInsert_ne _ _ _ _ (Ne.symm hk2)]
    exact alLookup_alDelete_ne _ _ _ (fun h => hk1 h.symm)
  · unfold ClientGo.clientAt
    rw [hcl.1]
    show alLookup (alInsert st.clients cid
      { c with nick := newNick, key := lowerStr newNick }) cid = _
    exact alLookup_alInsert_self _ _ _
  · intro d hd
    unfold ClientGo.clientAt
    rw [hcl.1]
    show alLookup (alInsert st.clients cid
      { c with nick := newNick, key := lowerStr newNick }) d = alLookup st.clients d
    exact alLookup_alInsert_ne _ _ _ _ (Ne.symm hd)
  · intro k hk ch hch
    refine ⟨ClientGo.rekeyChannel ch c.key (lowerStr newNick) cid, ?_, ?_, ?_, ?_, ?_, ?_, ?_⟩
    · exact setNickChannels_lookup_mem c.key c.nick (lowerStr newNick) newNick cid
        c.channelMap _ _ H3 k hk ch hch
    · exact alLookup_alInsert_self _ _ _
    · show alLookup (alInsert (alDelete ch.clientMap c.key)
        (lowerStr newNick) cid) c.key = none
      rw [alLookup_alInsert_ne _ _ _ _ Hne]
      exact alLookup_alDelete_self _ _
    · intro mk h1 h2
      show alLookup (alInsert (alDelete ch.clientMap c.key)
        (lowerStr newNick) cid) mk = alLookup ch.clientMap mk
      rw [alLookup_alInsert_ne _ _ _ _ (Ne.symm h2)]
      exact alLookup_alDelete_ne _ _ _ (fun h => h1 h.symm)
    · show alLookup (alDelete (alInsert ch.modeMap (lowerStr newNick)
        ((alLookup ch.modeMap c.key).getD none)) c.key) (lowerStr newNick) =
        alLookup ch.modeMap c.key
      rw [alLookup_alDelete_ne _ _ _ (fun h => Hne h.symm)]
      rw [alLookup_alInsert_self]
      obtain ⟨mo, hmo⟩ := Option.isSome_iff_exists.mp (Hmode k hk ch hch)
      rw [hmo]
      rfl
    · show alLookup (alDelete (alInsert ch.modeMap (lowerStr newNick)
        ((alLookup ch.modeMap c.key).getD none)) c.key) c.key = none
      exact alLookup_alDelete_self _ _
    · intro mk h1 h2
      show alLookup (alDelete (alInsert ch.modeMap (lowerStr newNick)
        ((alLookup ch.modeMap c.key).getD none)) c.key) mk = alLookup ch.modeMap mk
      rw [alLookup_alDelete_ne _ _ _ (fun h => h1 h.symm)]
      exact alLookup_alInsert_ne _ _ _ _ (Ne.symm h2)
  · intro k hk
    exact setNickChannels_lookup_ne c.key c.nick (lowerStr newNick) newNick cid
      c.channelMap _ _ k hk

/-- Witness for C2 (amended): alice's rename to `alice2` re-keys `clientMap`
and `#r1`'s member and mode tables, carrying her mode. -/
theorem c2_setNick_rekeying_witness :
    alLookup (ClientGo.setNick stVis 0 "alice2").1.server.clientMap "alice2" =
      some 0 ∧
    alLookup (ClientGo.setNick stVis 0 "alice2").1.server.clientMap "alice" =
      none ∧
    (∃ ch', alLookup (ClientGo.setNick stVis 0 "alice2").1.server.channelMap
        "#r1" = some ch' ∧
      alLookup ch'.clientMap "alice2" = some 0 ∧
      alLookup ch'.clientMap "alice" = none ∧
      alLookup ch'.modeMap "alice2" = alLookup chR1.modeMap "alice") := by
  have hmode : ∀ k ∈ (["#r1", "#r2"] : List String), ∀ ch : ClientGo.Channel,
      alLookup stVis.server.channelMap k = some ch →
      (alLookup ch.modeMap "alice").isSome = true := by
    intro k hk ch hch
    rcases List.mem_cons.mp hk with h | h
    · subst h
      have h0 : alLookup stVis.server.channelMap "#r1" = some chR1 := by decide
      rw [h0] at hch
      injection hch with hch
      subst hch
      decide
    · rcases List.mem_cons.mp h with h' | h'
      · subst h'
        have h0 : alLookup stVis.server.channelMap "#r2" = some chR2 := by decide
        rw [h0] at hch
        injection hch with hch
        subst hch
        decide
      · simp at h'
  have h := c2_setNick_rekeying stVis 0 "alice2"
    { nick := "alice", key := "alice", channelMap := ["#r1", "#r2"] }
    (by decide) rfl (by decide) (by decide) hmode
  obtain ⟨ch', hch', hm1, hm2, _, hm5, _, _⟩ :=
    h.2.2.2.2.2.1 "#r1" (by decide) chR1 (by decide)
  exact ⟨h.1, h.2.1, ch', hch', hm1, hm2, hm5⟩
